import Mathlib

/-!
Verification development for the lazyclaude discovery core.

The Python source is shallowly embedded: paths are component lists, the
filesystem is an explicit structure, JSON values are an inductive type, and
Python exceptions that the code does not catch are modelled with `Except`.
Components whose source files are absent from the repository snapshot
(the filesystem scanner, the front-matter parser, and the slash-command,
subagent, memory-file, MCP and hook parsers) are modelled from the spec and
marked as such in their doc comments.
-/

namespace LC

/-- A filesystem path, as its list of components from the root
(`/home/u/.claude/CLAUDE.md` is `["home", "u", ".claude", "CLAUDE.md"]`). -/
abbrev Path := List String

/-- JSON values as produced by `json.loads`.  Numbers are modelled as
integers (no claim depends on fractional numbers); objects are association
lists with the keys of the parsed dict (unique, since `json.loads` keeps one
entry per key). -/
inductive Json where
  | null
  | bool (b : Bool)
  | num (n : Int)
  | str (s : String)
  | arr (xs : List Json)
  | obj (kvs : List (String × Json))

/-- Association-list lookup with string keys, modelling `dict` lookup. -/
def lookupKV (kvs : List (String × Json)) (k : String) : Option Json :=
  match kvs with
  | [] => none
  | (k', v) :: rest => if k' == k then some v else lookupKV rest k

/-- Python truthiness of a JSON value (`bool(x)`): `None`/`False`/`0`/`""`
and empty containers are falsy. -/
def pyTruthy : Json → Bool
  | .null => false
  | .bool b => b
  | .num n => n != 0
  | .str s => !s.isEmpty
  | .arr xs => !xs.isEmpty
  | .obj kvs => !kvs.isEmpty

/-- The content a file contributes to the model: readable text, a value it
decodes to as JSON, undecodable-as-JSON content, or a file whose read raises
`OSError`.  A file used as text stores `.text`; a file used as JSON stores
`.jsonVal`/`.invalidJson`. -/
inductive FileData where
  | text (s : String)
  | jsonVal (j : Json)
  | invalidJson
  | unreadable

/-- The filesystem visible to one discovery pass.  `links` models symlink
resolution (`Path.resolve`): a path not in the map resolves to itself.
`unreadableDirs` are directories whose `iterdir()` raises `OSError`. -/
structure FS where
  files : List (Path × FileData)
  dirs : List Path
  links : List (Path × Path) := []
  unreadableDirs : List Path := []

/-- Look up a file's data (`none` when no regular file exists at `p`). -/
def FS.fileAt (fs : FS) (p : Path) : Option FileData :=
  match fs.files.find? (fun e => e.1 == p) with
  | some e => some e.2
  | none => none

/-- `Path.is_file()`. -/
def FS.isFile (fs : FS) (p : Path) : Bool :=
  (fs.fileAt p).isSome

/-- `Path.is_dir()`. -/
def FS.isDir (fs : FS) (p : Path) : Bool :=
  fs.dirs.contains p

/-- `Path.resolve()`: follow the symlink map, defaulting to the path itself. -/
def FS.resolve (fs : FS) (p : Path) : Path :=
  match fs.links.find? (fun e => e.1 == p) with
  | some e => e.2
  | none => p

/-- `path.read_text()`: `.ok` with the text, `.error` on `OSError` (missing
file, unreadable file, or data this model does not expose as text). -/
def FS.readText (fs : FS) (p : Path) : Except String String :=
  match fs.fileAt p with
  | some (.text s) => .ok s
  | some (.jsonVal _) => .error "non-text data"
  | some .invalidJson => .error "non-text data"
  | some .unreadable => .error "Permission denied"
  | none => .error "No such file"

/-- `json.loads(path.read_text())`: `.ok` with the decoded value, `.error`
on `OSError` or `json.JSONDecodeError` (text that is not valid JSON is
undecodable). -/
def FS.readJson (fs : FS) (p : Path) : Except String Json :=
  match fs.fileAt p with
  | some (.jsonVal j) => .ok j
  | some .invalidJson => .error "Expecting value"
  | some (.text _) => .error "Expecting value"
  | some .unreadable => .error "Permission denied"
  | none => .error "No such file"

/-- Immediate subdirectories of `p` (`[d for d in p.iterdir() if d.is_dir()]`),
in the filesystem's enumeration order; `none` when `iterdir()` raises
`OSError`. -/
def FS.childDirs (fs : FS) (p : Path) : Option (List Path) :=
  if fs.unreadableDirs.contains p then none
  else some (fs.dirs.filter (fun d => d != p && d.dropLast == p))

/-- Files strictly under `root` whose final component satisfies `pred`
(`root.rglob(pattern)`), in the filesystem's enumeration order. -/
def FS.rglobFiles (fs : FS) (root : Path) (pred : String → Bool) : List Path :=
  (fs.files.map (·.1)).filter
    (fun f => root.isPrefixOf f && decide (root.length < f.length)
      && pred ((f.getLast?).getD ""))

/-- Files that are direct children of `root` whose name satisfies `pred`
(`root.glob(pattern)` for a flat pattern). -/
def FS.flatFiles (fs : FS) (root : Path) (pred : String → Bool) : List Path :=
  (fs.files.map (·.1)).filter
    (fun f => f.dropLast == root && pred ((f.getLast?).getD ""))

/-- The final path component (`Path.name`; `""` for the root). -/
def lastName (p : Path) : String :=
  (p.getLast?).getD ""

/-- Lowercase one character, modelling `str.lower` on the ASCII range
(the inputs the claims exercise). -/
def lowerChar (c : Char) : Char :=
  if 'A' ≤ c ∧ c ≤ 'Z' then Char.ofNat (c.toNat + 32) else c

/-- Lowercase a string, modelling `str.lower` on the ASCII range. -/
def lowerString (s : String) : String :=
  ⟨s.data.map lowerChar⟩

/-- Uppercase one character, modelling `str.upper` on the ASCII range. -/
def upperChar (c : Char) : Char :=
  if 'a' ≤ c ∧ c ≤ 'z' then Char.ofNat (c.toNat - 32) else c

/-- Uppercase a string, modelling `str.upper` on the ASCII range. -/
def upperString (s : String) : String :=
  ⟨s.data.map upperChar⟩

/-- Is `n` a prefix of `h`? -/
def charsIsPrefix : List Char → List Char → Bool
  | [], _ => true
  | _ :: _, [] => false
  | a :: as, b :: bs => a == b && charsIsPrefix as bs

/-- Python's `needle in hay` on strings: contiguous-substring test
(the empty needle is always contained). -/
def strContains (hay needle : String) : Bool :=
  (List.range (hay.data.length + 1)).any
    (fun i => charsIsPrefix needle.data (hay.data.drop i))

/-- Python string `<` (lexicographic by code point), as used by tuple
comparison inside `sorted`/`max`. -/
def charsLt : List Char → List Char → Bool
  | [], [] => false
  | [], _ :: _ => true
  | _ :: _, [] => false
  | a :: as, b :: bs =>
    if a.toNat < b.toNat then true
    else if b.toNat < a.toNat then false
    else charsLt as bs

/-- Python string `<=` (lexicographic by code point). -/
def charsLe : List Char → List Char → Bool
  | [], _ => true
  | _ :: _, [] => false
  | a :: as, b :: bs =>
    if a.toNat < b.toNat then true
    else if b.toNat < a.toNat then false
    else charsLe as bs

/-- Split a character list on a separator character (`str.split(sep)`:
adjacent separators produce empty pieces). -/
def splitOnChar (sep : Char) : List Char → List Char → List (List Char)
  | [], cur => [cur.reverse]
  | c :: rest, cur =>
    if c == sep then cur.reverse :: splitOnChar sep rest []
    else splitOnChar sep rest (c :: cur)

/-- `str(path)` for this model: a leading slash plus slash-joined
components. -/
def joinPath (p : Path) : String :=
  "/" ++ String.intercalate "/" p

/-- `str(path.relative_to(root))` when `root` is a prefix of `p`. -/
def relPathString (root p : Path) : String :=
  String.intercalate "/" (p.drop root.length)

/-- Convert a path string of the manifest into a model path, dropping empty
segments (so `"/a/b"` and `"a/b"` both become `["a", "b"]`). -/
def pathOfString (s : String) : Path :=
  ((splitOnChar '/' s.data []).map (fun cs => String.mk cs)).filter
    (fun c => !c.isEmpty)

/-- `ConfigLevel` of `models/customization.py`. -/
inductive ConfigLevel where
  | USER
  | PROJECT
  | PROJECT_LOCAL
  | PLUGIN
  deriving DecidableEq, Repr

/-- `CustomizationType` of `models/customization.py`, in declaration order.
The file in the snapshot declares the first five members; `HOOK` and
`LSP_SERVER` are referenced by `services/parsers/lsp_server.py` and the hook
parser and are listed by the spec (a later revision of the models file is
absent from the snapshot), so they are included after the five, in the
spec's order. -/
inductive CustomizationType where
  | SLASH_COMMAND
  | SUBAGENT
  | SKILL
  | MEMORY_FILE
  | MCP
  | HOOK
  | LSP_SERVER
  deriving DecidableEq, Repr

/-- The declared enumeration index of a `CustomizationType`
(`type_order` of `ConfigDiscoveryService._sort_customizations`). -/
def typeOrder : CustomizationType → Nat
  | .SLASH_COMMAND => 0
  | .SUBAGENT => 1
  | .SKILL => 2
  | .MEMORY_FILE => 3
  | .MCP => 4
  | .HOOK => 5
  | .LSP_SERVER => 6

/-- `PluginInfo` of `models/customization.py`.  The `is_enabled` field is
assigned by `PluginLoader._create_plugin_info` and listed by the spec (§3);
it is absent from the snapshot's models file and included here. -/
structure PluginInfo where
  plugin_id : String
  short_name : String
  version : String
  install_path : Path
  is_local : Bool := false
  is_enabled : Bool := true

/-- `Customization` of `models/customization.py`.  `metadata` carries the
kind-specific attributes as key/JSON-value pairs (the dataclass stores the
metadata object's `__dict__`). -/
structure Customization where
  name : String
  type : CustomizationType
  level : ConfigLevel
  path : Path
  description : Option String := none
  content : Option String := none
  metadata : List (String × Json) := []
  error : Option String := none
  plugin_info : Option PluginInfo := none

/-! ### Front-matter parser (spec-modelled) -/

/-- Strip ASCII spaces from both ends (`str.strip()` restricted to spaces). -/
def trimChars (cs : List Char) : List Char :=
  ((cs.dropWhile (· == ' ')).reverse.dropWhile (· == ' ')).reverse

/-- Split a text into its lines at newline characters. -/
def textLines (s : String) : List (List Char) :=
  splitOnChar '\n' s.data []

/-- Join lines back with newlines. -/
def joinLines (ls : List (List Char)) : String :=
  String.intercalate "\n" (ls.map (fun cs => String.mk cs))

/-- Split the lines after the opening marker at the first closing `---`
line, returning the metadata lines and the body lines; `none` when no
closing marker exists. -/
def splitAtCloser : List (List Char) → Option (List (List Char) × List (List Char))
  | [] => none
  | l :: rest =>
    if l == "---".data then some ([], rest)
    else match splitAtCloser rest with
      | some (meta, body) => some (l :: meta, body)
      | none => none

/-- Parse one `key: value` metadata line; `none` when the line has no colon
(a malformed block). Blank lines are skipped by the caller. -/
def parseKVLine (cs : List Char) : Option (String × String) :=
  match cs.findIdx? (· == ':') with
  | none => none
  | some i =>
    some (String.mk (trimChars (cs.take i)), String.mk (trimChars (cs.drop (i + 1))))

/-- Parse the metadata block's lines; `none` as soon as one nonblank line is
malformed. -/
def parseKVLines : List (List Char) → Option (List (String × String))
  | [] => some []
  | l :: rest =>
    if trimChars l == [] then parseKVLines rest
    else match parseKVLine l with
      | none => none
      | some kv =>
        match parseKVLines rest with
        | none => none
        | some kvs => some (kv :: kvs)

/-- Modelled from the spec: `parse_frontmatter` lives in
`services/parsers/__init__.py`, which is absent from the snapshot.  Per
§4.1/§6: an optional metadata block delimited by a `---` line at the very
start of the document and a closing `---` line; if no opening marker at
offset 0, return `(empty map, original text unchanged)`; a malformed block
(no closing marker, or a metadata line without a colon) falls back to
`(empty map, original text)` instead of raising. -/
def parseFrontmatter (text : String) : List (String × String) × String :=
  match textLines text with
  | [] => ([], text)
  | first :: rest =>
    if first == "---".data then
      match splitAtCloser rest with
      | none => ([], text)
      | some (metaLines, bodyLines) =>
        match parseKVLines metaLines with
        | none => ([], text)
        | some kvs => (kvs, joinLines bodyLines)
    else ([], text)

/-- Association lookup over parsed front matter (`dict.get`). -/
def fmGet (kvs : List (String × String)) (k : String) : Option String :=
  match kvs with
  | [] => none
  | (k', v) :: rest => if k' == k then some v else fmGet rest k

/-! ### Sorting (`ConfigDiscoveryService._sort_customizations`) -/

/-- The sort key order of `_sort_customizations`: Python's `<=` on the
tuples `(type_order[c.type], c.name.lower())`. -/
def keyLe (a b : Customization) : Bool :=
  decide (typeOrder a.type < typeOrder b.type)
  || (decide (typeOrder a.type = typeOrder b.type)
      && charsLe (a.name.data.map lowerChar) (b.name.data.map lowerChar))

/-- The sort key order as a decidable relation. -/
def keyRel (a b : Customization) : Prop := keyLe a b = true

instance : DecidableRel keyRel := fun a b => instDecidableEqBool (keyLe a b) true

/-- `_sort_customizations`: Python's `sorted` is a stable sort whose output
is nondecreasing in the key; any stable sort under the same total key order
produces the identical list, so stable insertion sort models it exactly. -/
def sortCustomizations (cs : List Customization) : List Customization :=
  List.insertionSort keyRel cs

/-! ### Filter service (`services/filter.py`) -/

/-- `FilterService._matches_query` (the query is already lowercased by the
caller): the lowercased name contains the query, or, for plugin-sourced
items, the lowercased `"short_name:"` prefix or the `"prefix" + name`
concatenation contains it. -/
def matchesQuery (c : Customization) (query : String) : Bool :=
  if strContains (lowerString c.name) query then true
  else
    match c.plugin_info with
    | some pi =>
      let pre := lowerString (pi.short_name ++ ":")
      let full_name := pre ++ lowerString c.name
      if strContains pre query || strContains full_name query then true else false
    | none => false

/-- `FilterService.filter`: restrict to the level when one is given, then,
when the query is nonempty, restrict to the matching items. -/
def filterCustomizations (customizations : List Customization) (query : String)
    (level : Option ConfigLevel) : List Customization :=
  let result := match level with
    | some lv => customizations.filter (fun c => c.level == lv)
    | none => customizations
  if query.isEmpty then result
  else result.filter (fun c => matchesQuery c (lowerString query))

/-- `FilterService.by_type`. -/
def byType (customizations : List Customization) (ctype : CustomizationType) :
    List Customization :=
  customizations.filter (fun c => c.type == ctype)

/-! ### Plugin loader (`services/plugin_loader.py`) -/

/-- `PluginRegistry`: the raw installed-plugins map and enabled-plugins map.
Values are raw JSON as in the manifests. -/
structure PluginRegistry where
  installed : List (String × Json)
  enabled : List (String × Json)

/-- Python `int(s)` restricted to an optional sign followed by decimal
digits (the forms version-directory names take; `int` also accepts
surrounding whitespace and embedded underscores, which no claim exercises). -/
def pyInt (cs : List Char) : Option Int :=
  let digits : List Char → Option Int := fun ds =>
    if ds.isEmpty then none
    else if ds.all (·.isDigit) then
      some (Int.ofNat (ds.foldl (fun acc c => acc * 10 + (c.toNat - '0'.toNat)) 0))
    else none
  match cs with
  | '-' :: rest => (digits rest).map (fun n => -n)
  | '+' :: rest => digits rest
  | _ => digits cs

/-- The comparison key of one version string:
`PluginLoader._parse_version`.  A tuple of ints when every dot-separated
component parses as an int, otherwise the one-element tuple holding the
original string. -/
def parseVersion (s : String) : List Int ⊕ String :=
  let comps := splitOnChar '.' s.data []
  match comps.mapM pyInt with
  | some ns => .inl ns
  | none => .inr s

/-- Python `>` on int tuples (lexicographic, shorter tuple loses on a tie
of the common prefix). -/
def intsGt : List Int → List Int → Bool
  | [], _ => false
  | _ :: _, [] => true
  | a :: as, b :: bs =>
    if a > b then true else if a < b then false else intsGt as bs

/-- Python `>` on the keys `_parse_version` produces: defined between two
int tuples and between two string tuples; comparing an int tuple with a
string tuple raises `TypeError` (`none`). -/
def vkeyGt : List Int ⊕ String → List Int ⊕ String → Option Bool
  | .inl a, .inl b => some (intsGt a b)
  | .inr a, .inr b => some (charsLt b.data a.data)
  | _, _ => none

/-- Python `max(xs, key=f)` over a nonempty list: scan left to right keeping
the current maximum, replacing it only on strictly greater key (ties keep
the earlier element); `none` models a `TypeError` from an undefined key
comparison. -/
def pyMaxBy {α : Type} (f : α → List Int ⊕ String) : α → List α → Option α
  | cur, [] => some cur
  | cur, x :: rest =>
    match vkeyGt (f x) (f cur) with
    | none => none
    | some true => pyMaxBy f x rest
    | some false => pyMaxBy f cur rest

/-- `PluginLoader._find_latest_version_dir`: list the subdirectories of the
parent (returning the parent itself on `OSError` or when there are none)
and take the one with the maximal version key; a `TypeError` from comparing
a numeric key with a string key is not caught and propagates (`.error`). -/
def findLatestVersionDir (fs : FS) (parent_dir : Path) : Except String Path :=
  match fs.childDirs parent_dir with
  | none => .ok parent_dir
  | some [] => .ok parent_dir
  | some (d :: ds) =>
    match pyMaxBy (fun d' => parseVersion (lastName d')) d ds with
    | some m => .ok m
    | none => .error "TypeError"

/-- `plugin_id.split("@")[0] if "@" in plugin_id else plugin_id`. -/
def shortNameOf (plugin_id : String) : String :=
  if plugin_id.data.contains '@' then
    String.mk ((splitOnChar '@' plugin_id.data []).headD [])
  else plugin_id

/-- `registry.enabled.get(plugin_id, True)` as a truth value (the raw JSON
value's Python truthiness; a missing key defaults to `True`). -/
def enabledFlag (enabled : List (String × Json)) (plugin_id : String) : Bool :=
  match lookupKV enabled plugin_id with
  | some v => pyTruthy v
  | none => true

/-- `PluginLoader._create_plugin_info`.  `.ok none` models the `return None`
for a falsy `installPath`; `.error` models the uncaught exceptions Python
would raise on a non-object entry, a truthy non-string `installPath`, or a
`TypeError` out of `_find_latest_version_dir`.  A non-string `version`
value is modelled by the `"unknown"` default. -/
def createPluginInfo (fs : FS) (enabled : List (String × Json))
    (plugin_id : String) (plugin_data : Json) : Except String (Option PluginInfo) :=
  match plugin_data with
  | .obj kvs =>
    match lookupKV kvs "installPath" with
    | none => .ok none
    | some v =>
      if !pyTruthy v then .ok none
      else match v with
        | .str s =>
          let short_name := shortNameOf plugin_id
          let install_path := pathOfString s
          let version := match lookupKV kvs "version" with
            | some (.str ver) => ver
            | _ => "unknown"
          let is_local := match lookupKV kvs "isLocal" with
            | some w => pyTruthy w
            | none => false
          let is_enabled := enabledFlag enabled plugin_id
          if !(fs.isDir install_path) && fs.isDir install_path.dropLast then
            match findLatestVersionDir fs install_path.dropLast with
            | .error e => .error e
            | .ok vdir =>
              .ok (some { plugin_id, short_name, version := lastName vdir,
                          install_path := vdir, is_local, is_enabled })
          else
            .ok (some { plugin_id, short_name, version, install_path,
                        is_local, is_enabled })
        | _ => .error "TypeError"
  | _ => .error "AttributeError"

/-- The shared loop of `get_all_plugins` / `get_enabled_plugins` over the
installed map's entries: skip disabled entries when `onlyEnabled`, build the
`PluginInfo`, and keep it when its resolved install directory exists. -/
def collectPlugins (fs : FS) (enabled : List (String × Json)) (onlyEnabled : Bool) :
    List (String × Json) → Except String (List PluginInfo)
  | [] => .ok []
  | (plugin_id, plugin_data) :: rest =>
    if onlyEnabled && !enabledFlag enabled plugin_id then
      collectPlugins fs enabled onlyEnabled rest
    else
      match createPluginInfo fs enabled plugin_id plugin_data with
      | .error e => .error e
      | .ok none => collectPlugins fs enabled onlyEnabled rest
      | .ok (some pi) =>
        match collectPlugins fs enabled onlyEnabled rest with
        | .error e => .error e
        | .ok l => .ok (if fs.isDir pi.install_path then pi :: l else l)

/-- `PluginLoader.get_all_plugins` over a loaded registry. -/
def getAllPlugins (fs : FS) (registry : PluginRegistry) : Except String (List PluginInfo) :=
  collectPlugins fs registry.enabled false registry.installed

/-- `PluginLoader.get_enabled_plugins` over a loaded registry. -/
def getEnabledPlugins (fs : FS) (registry : PluginRegistry) : Except String (List PluginInfo) :=
  collectPlugins fs registry.enabled true registry.installed

/-- `PluginLoader._load_json_dict`: `{}` when the file is missing, fails to
read, or fails to decode; otherwise `data.get(key, {})`.  A top-level JSON
value or a `key` value that is not an object makes Python raise later (or
return the non-dict value); those paths are outside the modelled domain and
yield `{}` here. -/
def loadJsonDict (fs : FS) (path : Path) (key : String) : List (String × Json) :=
  match fs.fileAt path with
  | none => []
  | some (.jsonVal (.obj kvs)) =>
    match lookupKV kvs key with
    | some (.obj inner) => inner
    | _ => []
  | some _ => []

/-- `PluginLoader.load_registry`'s fresh computation (the cache aside):
read the installed map from `plugins/installed_plugins.json` and the
enabled map from `settings.json`. -/
def loadRegistryFresh (fs : FS) (user_config_path : Path) : PluginRegistry :=
  { installed := loadJsonDict fs (user_config_path ++ ["plugins", "installed_plugins.json"]) "plugins",
    enabled := loadJsonDict fs (user_config_path ++ ["settings.json"]) "enabledPlugins" }

/-! ### Type-specific parsers -/

mutual

/-- Render a JSON value back to text (`json.dumps` up to whitespace; the
indentation of `indent=2` is not reproduced, no property depends on it). -/
def jsonRender : Json → String
  | .null => "null"
  | .bool true => "true"
  | .bool false => "false"
  | .num n => toString n
  | .str s => "\"" ++ s ++ "\""
  | .arr xs => "[" ++ jsonRenderList xs ++ "]"
  | .obj kvs => "\x7b" ++ jsonRenderKVs kvs ++ "\x7d"

/-- Render an array's elements, comma-separated. -/
def jsonRenderList : List Json → String
  | [] => ""
  | [x] => jsonRender x
  | x :: y :: rest => jsonRender x ++ ", " ++ jsonRenderList (y :: rest)

/-- Render an object's entries, comma-separated. -/
def jsonRenderKVs : List (String × Json) → String
  | [] => ""
  | [(k, v)] => "\"" ++ k ++ "\": " ++ jsonRender v
  | (k, v) :: e :: rest => "\"" ++ k ++ "\": " ++ jsonRender v ++ ", " ++ jsonRenderKVs (e :: rest)

end

/-- Sequentially run a fallible step over a list, aborting at the first
raised exception (a Python `for` loop building a list, where an uncaught
exception discards the partial list). -/
def mapME {α β : Type} (f : α → Except String β) : List α → Except String (List β)
  | [] => .ok []
  | x :: rest =>
    match f x with
    | .error e => .error e
    | .ok y =>
      match mapME f rest with
      | .error e => .error e
      | .ok ys => .ok (y :: ys)

/-- `SkillParser.parse` (`services/parsers/skill.py`): read `SKILL.md`,
returning an error record on `OSError`; otherwise take name/description/tags
from the front matter (name defaulting to the skill directory's name) and
compute the sibling-presence booleans by checking the filesystem. -/
def skillParse (fs : FS) (path : Path) (level : ConfigLevel) : Customization :=
  let skill_dir := path.dropLast
  match fs.readText path with
  | .error e =>
    { name := lastName skill_dir, type := .SKILL, level, path,
      error := some ("Failed to read file: " ++ e) }
  | .ok content =>
    let fm := (parseFrontmatter content).1
    let name := (fmGet fm "name").getD (lastName skill_dir)
    let description := fmGet fm "description"
    let tags : List String := match fmGet fm "tags" with
      | none => []
      | some tv =>
        if tv.isEmpty then []
        else ((splitOnChar ',' tv.data []).map (fun cs => String.mk (trimChars cs))).filter
          (fun t => !t.isEmpty)
    let metadata : List (String × Json) :=
      [("tags", .arr (tags.map .str)),
       ("has_reference", .bool (fs.isFile (skill_dir ++ ["reference.md"]) || fs.isDir (skill_dir ++ ["reference.md"]))),
       ("has_examples", .bool (fs.isFile (skill_dir ++ ["examples.md"]) || fs.isDir (skill_dir ++ ["examples.md"]))),
       ("has_scripts", .bool (fs.isDir (skill_dir ++ ["scripts"]))),
       ("has_templates", .bool (fs.isDir (skill_dir ++ ["templates"])))]
    { name, type := .SKILL, level, path, description, content := some content, metadata }

/-- `LSPServerParser.parse_server_config` (`services/parsers/lsp_server.py`):
one record per language server, named by the language.  The `transport`
value is taken raw (`server_config.get("transport", "stdio")`, the string
default applying only when the key is absent) and `transport.upper()` is
called on it unguarded, so a present non-string value raises
`AttributeError` (`.error`) out of the parser. -/
def lspParseServerConfig (language_name : String) (server_config : List (String × Json))
    (source_path : Path) (level : ConfigLevel) : Except String Customization :=
  let command := lookupKV server_config "command"
  let args := match lookupKV server_config "args" with
    | some (.arr xs) => Json.arr xs
    | _ => Json.arr []
  let extension_to_language := match lookupKV server_config "extensionToLanguage" with
    | some (.obj kvs) => Json.obj kvs
    | _ => Json.obj []
  let env := match lookupKV server_config "env" with
    | some (.obj kvs) => Json.obj kvs
    | _ => Json.obj []
  let init_options := match lookupKV server_config "initializationOptions" with
    | some (.obj kvs) => Json.obj kvs
    | _ => Json.obj []
  let settings := match lookupKV server_config "settings" with
    | some (.obj kvs) => Json.obj kvs
    | _ => Json.obj []
  match (lookupKV server_config "transport").getD (.str "stdio") with
  | .str transport =>
    let description := match command with
      | some c =>
        if pyTruthy c then
          match c with
          | .str cs => upperString transport ++ " command: " ++ cs
          | _ => upperString transport ++ " command: " ++ jsonRender c
        else upperString transport ++ " server"
      | none => upperString transport ++ " server"
    .ok { name := language_name, type := .LSP_SERVER, level, path := source_path,
          description := some description,
          content := some (jsonRender (.obj server_config)),
          metadata := [("command", (command.getD .null)), ("args", args),
                       ("extension_to_language", extension_to_language),
                       ("transport", .str transport), ("env", env),
                       ("initialization_options", init_options), ("settings", settings)] }
  | _ => .error "AttributeError"

/-- `LSPServerParser.parse`: on read or decode failure, one record with the
kind set, the error populated and no content; a falsy or non-dict document
yields no records; otherwise one record per dict-valued entry, the loop
aborting with the uncaught `AttributeError` when an entry's transport value
is present and not a string. -/
def lspParse (fs : FS) (path : Path) (level : ConfigLevel) :
    Except String (List Customization) :=
  match fs.readJson path with
  | .error e =>
    .ok [{ name := lastName path, type := .LSP_SERVER, level, path,
           error := some ("Failed to parse LSP config: " ++ e) }]
  | .ok data =>
    match data with
    | .obj kvs =>
      if kvs.isEmpty then .ok []
      else mapME (fun kv => lspParseServerConfig kv.1 kv.2 path level)
        (kvs.filterMap (fun kv => match kv.2 with
          | .obj cfg => some (kv.1, cfg)
          | _ => none))
    | _ => .ok []

/-- Modelled from the spec: `MemoryFileParser` (`services/parsers/memory_file.py`)
is absent from the snapshot.  Per §4.2, a memory file's identity is its full
path and the whole file is its content, with the general error policy (a
read failure yields a record with the error set and no content). -/
def memoryFileParse (fs : FS) (path : Path) (level : ConfigLevel) : Customization :=
  match fs.readText path with
  | .error e =>
    { name := joinPath path, type := .MEMORY_FILE, level, path,
      error := some ("Failed to read file: " ++ e) }
  | .ok content =>
    { name := joinPath path, type := .MEMORY_FILE, level, path, content := some content }

/-- Modelled from the spec: `SlashCommandParser`
(`services/parsers/slash_command.py`) is absent from the snapshot.  Per
§4.2, a command's identity is its file stem with the nested path under the
commands root preserved; description from front matter; read failure yields
an error record. -/
def slashCommandParse (fs : FS) (commands_root : Path) (path : Path)
    (level : ConfigLevel) : Customization :=
  let rel := path.drop commands_root.length
  let stem := match rel.getLast? with
    | some fn => rel.dropLast ++ [String.mk (fn.data.take (fn.data.length - ".md".data.length))]
    | none => rel
  let name := String.intercalate "/" stem
  match fs.readText path with
  | .error e =>
    { name, type := .SLASH_COMMAND, level, path,
      error := some ("Failed to read file: " ++ e) }
  | .ok content =>
    let (fm, body) := parseFrontmatter content
    { name, type := .SLASH_COMMAND, level, path,
      description := fmGet fm "description", content := some body }

/-- Modelled from the spec: `SubagentParser` (`services/parsers/subagent.py`)
is absent from the snapshot.  Per §4.2, a subagent's identity is its file
stem; description from front matter; read failure yields an error record. -/
def subagentParse (fs : FS) (path : Path) (level : ConfigLevel) : Customization :=
  let fn := lastName path
  let name := String.mk (fn.data.take (fn.data.length - ".md".data.length))
  match fs.readText path with
  | .error e =>
    { name, type := .SUBAGENT, level, path,
      error := some ("Failed to read file: " ++ e) }
  | .ok content =>
    let (fm, body) := parseFrontmatter content
    { name, type := .SUBAGENT, level, path,
      description := fmGet fm "description", content := some body }

/-- Modelled from the spec: `MCPParser.parse_server_config`
(`services/parsers/mcp.py`) is absent from the snapshot.  Per §4.2, one
record per server entry, named by the server name, with transport type,
command, args, url and env in the metadata. -/
def mcpParseServerConfig (server_name : String) (server_config : Json)
    (source_path : Path) (level : ConfigLevel) : Customization :=
  let getKV := fun (k : String) => match server_config with
    | .obj kvs => lookupKV kvs k
    | _ => none
  let transport := match getKV "type" with
    | some (.str t) => t
    | _ => "stdio"
  { name := server_name, type := .MCP, level, path := source_path,
    content := some (jsonRender server_config),
    metadata := [("transport_type", .str transport),
                 ("command", ((getKV "command").getD .null)),
                 ("url", ((getKV "url").getD .null)),
                 ("args", ((getKV "args").getD (.arr []))),
                 ("env", ((getKV "env").getD (.obj [])))] }

/-- Modelled from the spec: `MCPParser.parse` (`services/parsers/mcp.py`) is
absent from the snapshot.  Per §4.2/§7: on read or decode failure one record
with the kind set and the error populated; otherwise one record per entry of
the `mcpServers` object. -/
def mcpParse (fs : FS) (path : Path) (level : ConfigLevel) : List Customization :=
  match fs.readJson path with
  | .error e =>
    [{ name := lastName path, type := .MCP, level, path,
       error := some ("Failed to parse MCP config: " ++ e) }]
  | .ok data =>
    match data with
    | .obj kvs =>
      match lookupKV kvs "mcpServers" with
      | some (.obj servers) =>
        servers.map (fun kv => mcpParseServerConfig kv.1 kv.2 path level)
      | _ => []
    | _ => []

/-- Modelled from the spec: `HookParser` (`services/parsers/hook.py`) is
absent from the snapshot.  Per §4.2/§6: entries under the `hooks` key of a
settings file, grouped by event name, one record per
(event, matcher, hook index); on read or decode failure one record with the
kind set and the error populated. -/
def hookParse (fs : FS) (path : Path) (level : ConfigLevel) : List Customization :=
  match fs.readJson path with
  | .error e =>
    [{ name := lastName path, type := .HOOK, level, path,
       error := some ("Failed to parse hooks: " ++ e) }]
  | .ok data =>
    match data with
    | .obj kvs =>
      match lookupKV kvs "hooks" with
      | some (.obj events) =>
        events.flatMap (fun ev => match ev.2 with
          | .arr entries => entries.flatMap (fun entry => match entry with
            | .obj ekvs =>
              let matcher := match lookupKV ekvs "matcher" with
                | some (.str m) => m
                | _ => "*"
              match lookupKV ekvs "hooks" with
              | some (.arr hooks) =>
                (hooks.enum).map (fun hi =>
                  let command := match hi.2 with
                    | .obj hkvs => (lookupKV hkvs "command").getD .null
                    | _ => .null
                  { name := ev.1 ++ ":" ++ matcher ++ ":" ++ toString hi.1,
                    type := .HOOK, level, path,
                    content := some (jsonRender hi.2),
                    metadata := [("event", .str ev.1), ("matcher", .str matcher),
                                 ("command", command)] })
              | _ => []
            | _ => [])
          | _ => [])
      | _ => []
    | _ => []

/-! ### Filesystem scanner (spec-modelled) and discovery orchestrator
(`services/discovery.py`) -/

/-- `*.md` glob match on a file name. -/
def endsMd (s : String) : Bool :=
  ".md".data.isSuffixOf s.data

/-- Attach a plugin back-reference to a record. -/
def setPluginInfo (pi : Option PluginInfo) (c : Customization) : Customization :=
  { c with plugin_info := pi }

/-- The three scan rules of `SCAN_CONFIGS`, in dict order. -/
inductive ScanKind where
  | slash_commands
  | subagents
  | skills

/-- Modelled from the spec: `FilesystemScanner.scan_directory`
(`services/filesystem_scanner.py`) is absent from the snapshot.  Per §4.4:
an empty list when the scan root is not a directory; otherwise the
recursive-glob rule `commands/**/*.md` routed to the slash-command parser,
the flat-glob rule `agents/*.md` routed to the subagent parser, or the
per-subdirectory rule `skills/*/SKILL.md` routed to the skill parser, each
record tagged with the given scope and plugin info. -/
def scanDirectory (fs : FS) (base_path : Path) (kind : ScanKind)
    (level : ConfigLevel) (pi : Option PluginInfo) : List Customization :=
  match kind with
  | .slash_commands =>
    let root := base_path ++ ["commands"]
    if fs.isDir root then
      (fs.rglobFiles root endsMd).map
        (fun p => setPluginInfo pi (slashCommandParse fs root p level))
    else []
  | .subagents =>
    let root := base_path ++ ["agents"]
    if fs.isDir root then
      (fs.flatFiles root endsMd).map
        (fun p => setPluginInfo pi (subagentParse fs p level))
    else []
  | .skills =>
    let root := base_path ++ ["skills"]
    if fs.isDir root then
      ((fs.childDirs root).getD []).filterMap (fun d =>
        if fs.isFile (d ++ ["SKILL.md"]) then
          some (setPluginInfo pi (skillParse fs (d ++ ["SKILL.md"]) level))
        else none)
    else []

/-- The constructor arguments of `ConfigDiscoveryService`: the ambient home
directory and the two (already resolved) config roots. -/
structure Env where
  home : Path
  user_config_path : Path
  project_config_path : Path

/-- `self.project_root = self.project_config_path.parent`. -/
def Env.projectRoot (env : Env) : Path :=
  env.project_config_path.dropLast

/-- The structured-scan part of `discover_all`: each scan rule at the user
root then at the project root. -/
def userProjectScans (fs : FS) (env : Env) : List Customization :=
  scanDirectory fs env.user_config_path .slash_commands .USER none
  ++ scanDirectory fs env.project_config_path .slash_commands .PROJECT none
  ++ scanDirectory fs env.user_config_path .subagents .USER none
  ++ scanDirectory fs env.project_config_path .subagents .PROJECT none
  ++ scanDirectory fs env.user_config_path .skills .USER none
  ++ scanDirectory fs env.project_config_path .skills .PROJECT none

/-- One shared walk shape of `_discover_memory_files` / `_discover_rules`:
process candidates in order against the accumulated records and the running
seen-resolved-paths list.  When `fileCheck`, a candidate that is not a file
is skipped; when `useCheck`, a candidate whose resolved path was already
seen is skipped; an accepted candidate's resolved path is added to the seen
list and its record appended. -/
def memStep (fs : FS) (mk : Path → Customization) (fileCheck useCheck : Bool) :
    List Path → List Customization × List Path → List Customization × List Path
  | [], st => st
  | c :: rest, (acc, seen) =>
    let r := fs.resolve c
    if (!fileCheck || fs.isFile c) && (!useCheck || !seen.contains r) then
      memStep fs mk fileCheck useCheck rest (acc ++ [mk c], r :: seen)
    else
      memStep fs mk fileCheck useCheck rest (acc, seen)

/-- The user stage of `ConfigDiscoveryService._discover_memory_files`: the
user candidates (`CLAUDE.md`, `AGENTS.md`, then `CLAUDE.local.md`) are added
without consulting the seen list (they are first and only fill it). -/
def memoryUserStage (fs : FS) (env : Env) : List Customization × List Path :=
  let u := env.user_config_path
  let st1 := memStep fs (fun p => memoryFileParse fs p .USER) true false
    [u ++ ["CLAUDE.md"], u ++ ["AGENTS.md"]] ([], [])
  memStep fs (fun p => memoryFileParse fs p .USER) true false
    [u ++ ["CLAUDE.local.md"]] st1

/-- `ConfigDiscoveryService._discover_memory_files`: after the user stage,
the fixed project candidates, the recursive `CLAUDE.md` walk (whose records
are renamed to their project-root-relative path) and the local candidates
skip any candidate whose resolved path was already emitted. -/
def discoverMemoryFiles (fs : FS) (env : Env) : List Customization :=
  let cfg := env.project_config_path
  let root := env.projectRoot
  let st2 := memoryUserStage fs env
  let st3 := memStep fs (fun p => memoryFileParse fs p .PROJECT) true true
    [cfg ++ ["CLAUDE.md"], cfg ++ ["AGENTS.md"],
     root ++ ["CLAUDE.md"], root ++ ["AGENTS.md"]] st2
  let st4 := memStep fs
    (fun p => { memoryFileParse fs p .PROJECT with name := relPathString root p })
    false true (fs.rglobFiles root (· == "CLAUDE.md")) st3
  let st5 := memStep fs (fun p => memoryFileParse fs p .PROJECT_LOCAL) true true
    [root ++ ["CLAUDE.local.md"], cfg ++ ["CLAUDE.local.md"]] st4
  st5.1

/-- `ConfigDiscoveryService._discover_rules`: every `*.md` recursively under
the user then the project `rules/` directory, named by its path relative to
its rules root, deduplicated by resolved path across the two roots. -/
def discoverRules (fs : FS) (env : Env) : List Customization :=
  let ur := env.user_config_path ++ ["rules"]
  let pr := env.project_config_path ++ ["rules"]
  let st1 := if fs.isDir ur then
      memStep fs (fun p => { memoryFileParse fs p .USER with name := relPathString ur p })
        true true (fs.rglobFiles ur endsMd) ([], [])
    else ([], [])
  let st2 := if fs.isDir pr then
      memStep fs (fun p => { memoryFileParse fs p .PROJECT with name := relPathString pr p })
        true true (fs.rglobFiles pr endsMd) st1
    else st1
  st2.1

/-- Replace backslashes by forward slashes (`s.replace("\\", "/")`). -/
def slashForward (s : String) : String :=
  ⟨s.data.map (fun c => if c == '\\' then '/' else c)⟩

/-- Replace forward slashes by backslashes (`s.replace("/", "\\")`). -/
def slashBackward (s : String) : String :=
  ⟨s.data.map (fun c => if c == '/' then '\\' else c)⟩

/-- `ConfigDiscoveryService._discover_local_mcps`: read the `projects` map
of `~/.claude.json`, try the project-root key with forward slashes then
with backslashes, and emit one record per entry of that project's
`mcpServers`.  A missing, unreadable or undecodable file and a missing key
both yield `.ok []` (the `try` catches `OSError`/`JSONDecodeError`); `.error`
models the exceptions Python would not catch when an intermediate value is
not an object. -/
def discoverLocalMcps (fs : FS) (env : Env) : Except String (List Customization) :=
  let claude_json := env.home ++ [".claude.json"]
  match fs.fileAt claude_json with
  | none => .ok []
  | some .unreadable => .ok []
  | some .invalidJson => .ok []
  | some (.text _) => .ok []
  | some (.jsonVal data) =>
    match data with
    | .obj kvs =>
      match (lookupKV kvs "projects").getD (.obj []) with
      | .obj projects =>
        let project_path := slashForward (joinPath env.projectRoot)
        let entry? := match lookupKV projects project_path with
          | some e => some e
          | none => lookupKV projects (slashBackward project_path)
        match entry? with
        | none => .ok []
        | some entry =>
          match entry with
          | .obj ekvs =>
            let servers := (lookupKV ekvs "mcpServers").getD (.obj [])
            if !pyTruthy servers then .ok []
            else match servers with
              | .obj skvs =>
                .ok (skvs.map (fun kv =>
                  mcpParseServerConfig kv.1 kv.2 claude_json .PROJECT_LOCAL))
              | _ => .error "AttributeError"
          | _ => .error "AttributeError"
      | _ => .error "TypeError"
    | _ => .error "AttributeError"

/-- The user-level part of `_discover_mcps` (`~/.claude.json`). -/
def userMcps (fs : FS) (env : Env) : List Customization :=
  let f := env.home ++ [".claude.json"]
  if fs.isFile f then mcpParse fs f .USER else []

/-- The project-level part of `_discover_mcps` (`<project_root>/.mcp.json`). -/
def projectMcps (fs : FS) (env : Env) : List Customization :=
  let f := env.projectRoot ++ [".mcp.json"]
  if fs.isFile f then mcpParse fs f .PROJECT else []

/-- `ConfigDiscoveryService._discover_hooks`: the three settings files, each
parsed when present. -/
def discoverHooks (fs : FS) (env : Env) : List Customization :=
  let us := env.user_config_path ++ ["settings.json"]
  let ps := env.project_config_path ++ ["settings.json"]
  let pls := env.project_config_path ++ ["settings.local.json"]
  (if fs.isFile us then hookParse fs us .USER else [])
  ++ (if fs.isFile ps then hookParse fs ps .PROJECT else [])
  ++ (if fs.isFile pls then hookParse fs pls .PROJECT_LOCAL else [])

/-- `ConfigDiscoveryService._discover_plugin_mcps`. -/
def pluginMcps (fs : FS) (install_path : Path) (pi : PluginInfo) : List Customization :=
  let f := install_path ++ [".mcp.json"]
  if fs.isFile f then (mcpParse fs f .PLUGIN).map (setPluginInfo (some pi)) else []

/-- `ConfigDiscoveryService._discover_plugin_hooks`. -/
def pluginHooks (fs : FS) (install_path : Path) (pi : PluginInfo) : List Customization :=
  let f := install_path ++ ["hooks", "hooks.json"]
  if fs.isFile f then (hookParse fs f .PLUGIN).map (setPluginInfo (some pi)) else []

/-- `ConfigDiscoveryService._discover_plugin_lsp_servers`: `.lsp.json` when
present (an `AttributeError` out of the LSP parser propagates — nothing
catches it there), then the `lspServers` object of
`.claude-plugin/plugin.json` (a read or decode failure of the latter is
swallowed, but an `AttributeError` from `parse_server_config` is not; a
non-object document would raise in Python and is outside the modelled
domain, yielding no records here). -/
def pluginLsps (fs : FS) (install_path : Path) (pi : PluginInfo) :
    Except String (List Customization) :=
  let lsp_file := install_path ++ [".lsp.json"]
  match (if fs.isFile lsp_file then lspParse fs lsp_file .PLUGIN else .ok []) with
  | .error e => .error e
  | .ok fromLspFile =>
    let tagged := fromLspFile.map (setPluginInfo (some pi))
    let plugin_json := install_path ++ [".claude-plugin", "plugin.json"]
    if fs.isFile plugin_json then
      match fs.readJson plugin_json with
      | .error _ => .ok tagged
      | .ok data =>
        match data with
        | .obj kvs =>
          match lookupKV kvs "lspServers" with
          | some (.obj lsp_servers) =>
            if lsp_servers.isEmpty then .ok tagged
            else
              match mapME (fun kv => lspParseServerConfig kv.1 kv.2 plugin_json .PLUGIN)
                  (lsp_servers.filterMap (fun kv => match kv.2 with
                    | .obj cfg => some (kv.1, cfg)
                    | _ => none)) with
              | .error e => .error e
              | .ok recs => .ok (tagged ++ recs.map (setPluginInfo (some pi)))
          | _ => .ok tagged
        | _ => .ok tagged
    else .ok tagged

/-- The per-plugin part of `_discover_plugins`: the three structured scans
rooted at the plugin's resolved install directory, then its MCP, hook and
LSP files, every record tagged with the plugin's info; an exception out of
the LSP stage aborts the pass. -/
def discoverPluginItems (fs : FS) (pi : PluginInfo) : Except String (List Customization) :=
  match pluginLsps fs pi.install_path pi with
  | .error e => .error e
  | .ok lsps =>
    .ok (scanDirectory fs pi.install_path .slash_commands .PLUGIN (some pi)
      ++ scanDirectory fs pi.install_path .subagents .PLUGIN (some pi)
      ++ scanDirectory fs pi.install_path .skills .PLUGIN (some pi)
      ++ pluginMcps fs pi.install_path pi
      ++ pluginHooks fs pi.install_path pi
      ++ lsps)

/-- `ConfigDiscoveryService.discover_from_directory`: only the structured
scans (plus, when plugin info is given, the plugin MCP/hook/LSP scans) at an
arbitrary directory, sorted; when plugin info is given, an `AttributeError`
out of the plugin LSP stage propagates. -/
def discoverFromDirectory (fs : FS) (plugin_dir : Path) (pi : Option PluginInfo) :
    Except String (List Customization) :=
  let base :=
    scanDirectory fs plugin_dir .slash_commands .PLUGIN pi
    ++ scanDirectory fs plugin_dir .subagents .PLUGIN pi
    ++ scanDirectory fs plugin_dir .skills .PLUGIN pi
  match pi with
  | some p =>
    match pluginLsps fs plugin_dir p with
    | .error e => .error e
    | .ok lsps =>
      .ok (sortCustomizations (base
        ++ (pluginMcps fs plugin_dir p ++ pluginHooks fs plugin_dir p ++ lsps)))
  | none => .ok (sortCustomizations base)

/-- The mutable state of one `ConfigDiscoveryService` with its
`PluginLoader`: the orchestrator's result cache and the loader's registry
cache. -/
structure DState where
  cache : Option (List Customization)
  registry : Option PluginRegistry

/-- `ConfigDiscoveryService.discover_all`.  A cached result is returned
unchanged; otherwise the pass runs in the source's fixed order — structured
scans, memory files, rules, MCPs (user, local, project), hooks, plugin
items — then sorts, caches and returns.  The local-MCP stage and the plugin
stage can raise (uncaught `TypeError`/`AttributeError` on degenerate JSON,
including a plugin LSP entry whose transport value is not a string); on a
raise the result cache stays unset, and the registry cache is set exactly
when the plugin stage had already loaded it. -/
def discoverAllS (fs : FS) (env : Env) (s : DState) :
    Except String (List Customization) × DState :=
  match s.cache with
  | some l => (.ok l, s)
  | none =>
    match discoverLocalMcps fs env with
    | .error e => (.error e, s)
    | .ok locals =>
      let registry := (s.registry).getD (loadRegistryFresh fs env.user_config_path)
      let s1 : DState := { s with registry := some registry }
      match getAllPlugins fs registry with
      | .error e => (.error e, s1)
      | .ok pis =>
        match mapME (discoverPluginItems fs) pis with
        | .error e => (.error e, s1)
        | .ok pluginItems =>
          let all := sortCustomizations
            (userProjectScans fs env
              ++ discoverMemoryFiles fs env
              ++ discoverRules fs env
              ++ (userMcps fs env ++ locals ++ projectMcps fs env)
              ++ discoverHooks fs env
              ++ pluginItems.flatten)
          (.ok all, { cache := some all, registry := some registry })

/-- `ConfigDiscoveryService.refresh`: clear the result cache and the plugin
registry cache, then re-run `discover_all`. -/
def refreshS (fs : FS) (env : Env) (_s : DState) :
    Except String (List Customization) × DState :=
  discoverAllS fs env { cache := none, registry := none }

/-- `discover_by_type` over a result list (a pure filter over
`discover_all`'s result). -/
def discoverByType (l : List Customization) (ctype : CustomizationType) :
    List Customization :=
  l.filter (fun c => c.type == ctype)

/-! ### Concrete fixtures for witnesses and counterexamples -/

/-- A small environment: home `/h`, user config `/h/.claude`, project config
`/p/.claude` (project root `/p`). -/
def envW : Env :=
  { home := ["h"], user_config_path := ["h", ".claude"],
    project_config_path := ["p", ".claude"] }

/-- An empty filesystem. -/
def fsEmptyW : FS := { files := [], dirs := [] }

/-- Both `<project_root>/.claude/CLAUDE.md` and `<project_root>/CLAUDE.md`
exist as distinct regular files. -/
def fsMemBoth : FS :=
  { files := [(["p", ".claude", "CLAUDE.md"], .text "a"), (["p", "CLAUDE.md"], .text "b")],
    dirs := [["p"], ["p", ".claude"]] }

/-- Both candidate files exist but `<project_root>/CLAUDE.md` is a symlink
resolving to `<project_root>/.claude/CLAUDE.md`. -/
def fsMemLink : FS :=
  { files := [(["p", ".claude", "CLAUDE.md"], .text "a"), (["p", "CLAUDE.md"], .text "a")],
    dirs := [["p"], ["p", ".claude"]],
    links := [(["p", "CLAUDE.md"], ["p", ".claude", "CLAUDE.md"])] }

/-- Only a nested `CLAUDE.md` exists, at `<project_root>/sub/CLAUDE.md`. -/
def fsMemNested : FS :=
  { files := [(["p", "sub", "CLAUDE.md"], .text "n")],
    dirs := [["p"], ["p", ".claude"], ["p", "sub"]] }

/-- A plugin parent directory with version subdirectories `1.0.0`, `10.0.0`
and `2.0.0`. -/
def fsVerW : FS :=
  { files := [],
    dirs := [["plug"], ["plug", "1.0.0"], ["plug", "10.0.0"], ["plug", "2.0.0"]] }

/-- A registry with one installed plugin whose install path (and its parent)
does not exist on the filesystem. -/
def regGoneW : PluginRegistry :=
  { installed := [("p@m", .obj [("installPath", .str "/gone/p")])], enabled := [] }

/-- An installed-plugins map with one plugin whose literal install path
`/plug/1.2.3` must be resolved against the `/plug` parent. -/
def instW : List (String × Json) :=
  [("p@m", .obj [("installPath", .str "/plug/1.2.3")])]

/-- A filesystem that gains `<project>/.claude/commands/newcmd.md` relative
to the empty one. -/
def fsNewFileW : FS :=
  { files := [(["p", ".claude", "commands", "newcmd.md"], .text "hello")],
    dirs := [["p"], ["p", ".claude"], ["p", ".claude", "commands"]] }

/-- An LSP config file whose content fails to decode as JSON, and a
`SKILL.md` whose read raises. -/
def fsParseErrW : FS :=
  { files := [(["a", ".lsp.json"], .invalidJson),
              (["s", "skills", "x", "SKILL.md"], .unreadable)],
    dirs := [["a"], ["s"], ["s", "skills"], ["s", "skills", "x"]] }

/-- A decodable `.lsp.json` holding one server entry whose `transport`
value is the number 1 (not a string). -/
def fsLspRaiseW : FS :=
  { files := [(["a", ".lsp.json"],
      .jsonVal (.obj [("go", .obj [("transport", .num 1)])]))],
    dirs := [["a"]] }

/-- A `~/.claude.json` whose `projects` map stores the project key with
backslashes. -/
def fsLocalMcpW : FS :=
  { files := [(["h", ".claude.json"],
      .jsonVal (.obj [("projects", .obj [("\\p",
        .obj [("mcpServers", .obj [("s1", .obj [("command", .str "npx")])])])])]))],
    dirs := [["h"]] }

/-! ## Theorems -/

/-! ### Order lemmas for the sort key and version keys -/

theorem charsLe_total : ∀ a b : List Char, charsLe a b = true ∨ charsLe b a = true := by
  intro a
  induction a with
  | nil => intro b; left; simp [charsLe]
  | cons x xs ih =>
    intro b
    cases b with
    | nil => right; simp [charsLe]
    | cons y ys =>
      simp only [charsLe]
      rcases Nat.lt_trichotomy x.toNat y.toNat with h | h | h
      · left; simp [h]
      · have h1 : ¬ x.toNat < y.toNat := by omega
        have h2 : ¬ y.toNat < x.toNat := by omega
        rcases ih ys with h3 | h3
        · left; simp [h1, h2, h3]
        · right; simp [h1, h2, h3]
      · right; simp [h, Nat.lt_asymm h]

theorem charsLe_trans : ∀ a b c : List Char,
    charsLe a b = true → charsLe b c = true → charsLe a c = true := by
  intro a
  induction a with
  | nil => intro b c _ _; simp [charsLe]
  | cons x xs ih =>
    intro b c hab hbc
    cases b with
    | nil => simp [charsLe] at hab
    | cons y ys =>
      cases c with
      | nil => simp [charsLe] at hbc
      | cons z zs =>
        simp only [charsLe] at hab hbc ⊢
        rcases Nat.lt_trichotomy x.toNat y.toNat with hxy | hxy | hxy <;>
          rcases Nat.lt_trichotomy y.toNat z.toNat with hyz | hyz | hyz
        · rw [if_pos (by omega)]
        · rw [if_pos (by omega)]
        · rw [if_neg (by omega), if_pos (by omega)] at hbc; simp at hbc
        · rw [if_pos (by omega)]
        · rw [if_neg (by omega), if_neg (by omega)] at hab
          rw [if_neg (by omega), if_neg (by omega)] at hbc
          rw [if_neg (by omega), if_neg (by omega)]
          exact ih ys zs hab hbc
        · rw [if_neg (by omega), if_pos (by omega)] at hbc; simp at hbc
        · rw [if_neg (by omega), if_pos (by omega)] at hab; simp at hab
        · rw [if_neg (by omega), if_pos (by omega)] at hab; simp at hab
        · rw [if_neg (by omega), if_pos (by omega)] at hab; simp at hab

theorem keyLe_total : ∀ a b : Customization, keyLe a b = true ∨ keyLe b a = true := by
  intro a b
  simp only [keyLe, Bool.or_eq_true, Bool.and_eq_true, decide_eq_true_eq]
  rcases Nat.lt_trichotomy (typeOrder a.type) (typeOrder b.type) with h | h | h
  · left; left; exact h
  · rcases charsLe_total (a.name.data.map lowerChar) (b.name.data.map lowerChar) with h' | h'
    · left; right; exact ⟨h, h'⟩
    · right; right; exact ⟨h.symm, h'⟩
  · right; left; exact h

theorem keyLe_trans : ∀ a b c : Customization,
    keyLe a b = true → keyLe b c = true → keyLe a c = true := by
  intro a b c hab hbc
  simp only [keyLe, Bool.or_eq_true, Bool.and_eq_true, decide_eq_true_eq] at hab hbc ⊢
  rcases hab with h1 | ⟨h1, h1'⟩ <;> rcases hbc with h2 | ⟨h2, h2'⟩
  · left; omega
  · left; omega
  · left; omega
  · right; exact ⟨h1.trans h2, charsLe_trans _ _ _ h1' h2'⟩

instance : IsTotal Customization keyRel :=
  ⟨fun a b => keyLe_total a b⟩

instance : IsTrans Customization keyRel :=
  ⟨fun a b c => keyLe_trans a b c⟩

theorem sortCustomizations_perm (l : List Customization) :
    (sortCustomizations l).Perm l :=
  List.perm_insertionSort keyRel l

theorem sortCustomizations_pairwise (l : List Customization) :
    (sortCustomizations l).Pairwise keyRel :=
  List.sorted_insertionSort keyRel l

/-- C2: for every input list, `_sort_customizations` returns a permutation
of it that is pairwise nondecreasing in the total order (kind enumeration
index, then case-insensitive name); in a sorted list no Skill record ever
precedes a SlashCommand record; and the lists `discover_all` computes and
`discover_from_directory` returns are sorted in that order. -/
theorem spec_sorted_by_kind_then_name :
    (∀ l : List Customization,
      (sortCustomizations l).Perm l ∧ (sortCustomizations l).Pairwise keyRel)
    ∧ (∀ (l : List Customization) (a b : Customization),
        [a, b].Sublist (sortCustomizations l) → a.type = .SKILL →
        b.type = .SLASH_COMMAND → False)
    ∧ (∀ fs env s l s', s.cache = none → discoverAllS fs env s = (.ok l, s') →
        l.Pairwise keyRel)
    ∧ (∀ fs dir pi l, discoverFromDirectory fs dir pi = .ok l →
        l.Pairwise keyRel) := by
  refine ⟨fun l => ⟨sortCustomizations_perm l, sortCustomizations_pairwise l⟩, ?_, ?_, ?_⟩
  · intro l a b hsub ha hb
    have hpw : ([a, b] : List Customization).Pairwise keyRel :=
      List.Pairwise.sublist hsub (sortCustomizations_pairwise l)
    have hrel : keyRel a b := (List.pairwise_cons.mp hpw).1 b (List.mem_singleton_self b)
    simp [keyRel, keyLe, typeOrder, ha, hb] at hrel
  · intro fs env s l s' hc hd
    obtain ⟨cache, registry⟩ := s
    simp only at hc
    subst hc
    unfold discoverAllS at hd
    cases hlm : discoverLocalMcps fs env with
    | error e => rw [hlm] at hd; simp at hd
    | ok locals =>
      rw [hlm] at hd
      cases hga : getAllPlugins fs (registry.getD (loadRegistryFresh fs env.user_config_path)) with
      | error e => simp only [hga] at hd; simp at hd
      | ok pis =>
        simp only [hga] at hd
        cases hmap : mapME (discoverPluginItems fs) pis with
        | error e => simp only [hmap] at hd; simp at hd
        | ok pluginItems =>
          simp only [hmap] at hd
          have hfst := congrArg Prod.fst hd
          simp at hfst
          rw [← hfst]
          exact sortCustomizations_pairwise _
  · intro fs dir pi l hd
    cases pi with
    | none =>
      simp only [discoverFromDirectory] at hd
      injection hd with h1
      rw [← h1]
      exact sortCustomizations_pairwise _
    | some p =>
      simp only [discoverFromDirectory] at hd
      cases hpl : pluginLsps fs dir p with
      | error e => simp only [hpl] at hd; exact absurd hd (by simp)
      | ok lsps =>
        simp only [hpl] at hd
        injection hd with h1
        rw [← h1]
        exact sortCustomizations_pairwise _

/-- Witness for C2: the sortedness of a `discover_all` pass evaluated at a
concrete filesystem (a project with one nested `CLAUDE.md`). -/
theorem spec_sorted_by_kind_then_name_witness :
    ∃ l s', discoverAllS fsMemNested envW ⟨none, none⟩ = (.ok l, s')
      ∧ l.Pairwise keyRel := by
  refine ⟨_, _, rfl, ?_⟩
  exact spec_sorted_by_kind_then_name.2.2.1 fsMemNested envW ⟨none, none⟩ _ _ rfl rfl

/-- C6: `filter` is the two-stage pipeline — scope restriction (when a
scope is given), then query restriction keeping exactly the items matched
by `_matches_query` against the lowercased query (name substring, or plugin
short-name prefix or prefix-plus-name concatenation), with an empty query
filtering nothing — it is order-preserving (the result is a sublist of the
input), and with an empty query and no scope it returns the input list
unchanged. -/
theorem spec_filter_two_stage_pipeline :
    (∀ (items : List Customization) (q : String) (lv : Option ConfigLevel),
      filterCustomizations items q lv =
        (match lv with
          | some l => items.filter (fun c : Customization => c.level == l)
          | none => items).filter
          (fun c => q.isEmpty || matchesQuery c (lowerString q)))
    ∧ (∀ items q lv, (filterCustomizations items q lv).Sublist items)
    ∧ (∀ items q lv (c : Customization), c ∈ filterCustomizations items q lv ↔
        c ∈ items ∧ (∀ l, lv = some l → c.level = l)
          ∧ (q.isEmpty = true ∨ matchesQuery c (lowerString q) = true))
    ∧ (∀ items : List Customization, filterCustomizations items "" none = items) := by
  have hpipe : ∀ (items : List Customization) (q : String) (lv : Option ConfigLevel),
      filterCustomizations items q lv =
        (match lv with
          | some l => items.filter (fun c : Customization => c.level == l)
          | none => items).filter
          (fun c => q.isEmpty || matchesQuery c (lowerString q)) := by
    intro items q lv
    by_cases hq : q.isEmpty
    · cases lv <;> simp [filterCustomizations, hq]
    · cases lv <;> simp [filterCustomizations, hq]
  refine ⟨hpipe, ?_, ?_, ?_⟩
  · intro items q lv
    rw [hpipe]
    cases lv with
    | none => exact List.filter_sublist items
    | some l => exact (List.filter_sublist _).trans (List.filter_sublist items)
  · intro items q lv c
    rw [hpipe]
    cases lv with
    | none => simp [List.mem_filter]
    | some l =>
      simp [List.mem_filter, and_assoc]
      tauto
  · intro items
    rfl

/-- C9 (spec-modelled: the front-matter parser's source file is absent from
the snapshot): a document whose first line is not the opening `---` marker
parses to an empty metadata map with the body equal to the original text;
and a malformed metadata block — no closing marker, or a metadata line
without a colon — never raises, falling back to the same pair. -/
theorem spec_frontmatter_fallback :
    (∀ (text : String) (first : List Char) (rest : List (List Char)),
      textLines text = first :: rest → first ≠ "---".data →
      parseFrontmatter text = ([], text))
    ∧ (∀ (text : String) (rest : List (List Char)),
      textLines text = "---".data :: rest → splitAtCloser rest = none →
      parseFrontmatter text = ([], text))
    ∧ (∀ (text : String) (rest : List (List Char)) meta body,
      textLines text = "---".data :: rest → splitAtCloser rest = some (meta, body) →
      parseKVLines meta = none →
      parseFrontmatter text = ([], text)) := by
  refine ⟨?_, ?_, ?_⟩
  · intro text first rest hl hm
    unfold parseFrontmatter
    rw [hl]
    simp [hm]
  · intro text rest hl hs
    unfold parseFrontmatter
    rw [hl]
    simp [hs]
  · intro text rest meta body hl hs hk
    unfold parseFrontmatter
    rw [hl]
    simp [hs, hk]

/-- Witness for C9: all three fallbacks evaluated on concrete documents. -/
theorem spec_frontmatter_fallback_witness :
    parseFrontmatter "hello\nworld" = ([], "hello\nworld")
    ∧ parseFrontmatter "---\nname: x\nno closer" = ([], "---\nname: x\nno closer")
    ∧ parseFrontmatter "---\nnocolon\n---\nbody" = ([], "---\nnocolon\n---\nbody") := by
  refine ⟨?_, ?_, ?_⟩
  · exact spec_frontmatter_fallback.1 "hello\nworld" _ _ rfl (by decide)
  · exact spec_frontmatter_fallback.2.1 "---\nname: x\nno closer" _ rfl (by rfl)
  · exact spec_frontmatter_fallback.2.2 "---\nnocolon\n---\nbody" _ _ _ rfl (by rfl) (by rfl)

/-- Membership in a successful `mapME` run comes from a successful step on
some element of the input. -/
theorem mapME_mem {α β : Type} (f : α → Except String β) :
    ∀ (xs : List α) (l : List β), mapME f xs = .ok l →
    ∀ y ∈ l, ∃ x ∈ xs, f x = .ok y := by
  intro xs
  induction xs with
  | nil =>
    intro l h y hy
    simp only [mapME] at h
    injection h with h1
    subst h1
    simp at hy
  | cons x rest ih =>
    intro l h y hy
    simp only [mapME] at h
    cases hfx : f x with
    | error e => rw [hfx] at h; exact absurd h (by simp)
    | ok z =>
      rw [hfx] at h
      cases hrest : mapME f rest with
      | error e => rw [hrest] at h; exact absurd h (by simp)
      | ok zs =>
        rw [hrest] at h
        injection h with h1
        subst h1
        rcases List.mem_cons.mp hy with hy | hy
        · exact ⟨x, List.mem_cons_self _ _, by rw [hfx, hy]⟩
        · obtain ⟨x', hx', hfx'⟩ := ih zs hrest y hy
          exact ⟨x', List.mem_cons_of_mem _ hx', hfx'⟩

/-- A record `parse_server_config` successfully returns carries the language
name, the `LSP_SERVER` kind, the scope it was invoked with and the source
path. -/
theorem lspParseServerConfig_ok_fields (language_name : String)
    (server_config : List (String × Json)) (source_path : Path)
    (level : ConfigLevel) (c : Customization) :
    lspParseServerConfig language_name server_config source_path level = .ok c →
    c.name = language_name ∧ c.type = .LSP_SERVER ∧ c.level = level
      ∧ c.path = source_path := by
  intro h
  simp only [lspParseServerConfig] at h
  repeat' split at h
  all_goals first
    | exact Except.noConfusion h
    | (injection h with h1; rw [← h1]; exact ⟨rfl, rfl, rfl, rfl⟩)

/-- C7 (amended): on a read or JSON-decode failure the LSP parser returns
(never raises) exactly one record with the kind `LSP_SERVER`, the error
populated, no content and no metadata; the skill parser likewise returns
one `SKILL` record on read failure; every record either parser returns
carries the required fields (the kind, the scope it was invoked with, and
the source path); but the parser boundary is not exception-free in
general — a successfully decoded server entry whose `transport` value is
present and not a string raises an uncaught `AttributeError`
(`transport.upper()`) out of the LSP parser. -/
theorem spec_parser_error_records :
    (∀ (fs : FS) (path : Path) (level : ConfigLevel) (e : String),
      fs.readJson path = .error e →
      lspParse fs path level = .ok
        [{ name := lastName path, type := .LSP_SERVER, level, path,
           description := none, content := none, metadata := [],
           error := some ("Failed to parse LSP config: " ++ e), plugin_info := none }])
    ∧ (∀ (fs : FS) (path : Path) (level : ConfigLevel) (e : String),
      fs.readText path = .error e →
      skillParse fs path level =
        { name := lastName path.dropLast, type := .SKILL, level, path,
          description := none, content := none, metadata := [],
          error := some ("Failed to read file: " ++ e), plugin_info := none })
    ∧ (∀ (fs : FS) (path : Path) (level : ConfigLevel) (l : List Customization)
        (c : Customization),
      lspParse fs path level = .ok l → c ∈ l →
      c.type = .LSP_SERVER ∧ c.level = level ∧ c.path = path)
    ∧ (∀ (fs : FS) (path : Path) (level : ConfigLevel),
      (skillParse fs path level).type = .SKILL
        ∧ (skillParse fs path level).level = level
        ∧ (skillParse fs path level).path = path)
    ∧ (∀ (language_name : String) (server_config : List (String × Json))
        (source_path : Path) (level : ConfigLevel) (v : Json),
      lookupKV server_config "transport" = some v → (∀ t, v ≠ .str t) →
      lspParseServerConfig language_name server_config source_path level
        = .error "AttributeError") := by
  refine ⟨?_, ?_, ?_, ?_, ?_⟩
  · intro fs path level e he
    unfold lspParse
    rw [he]
  · intro fs path level e he
    unfold skillParse
    rw [he]
  · intro fs path level l c hl hc
    simp only [lspParse] at hl
    cases hj : fs.readJson path with
    | error e =>
      simp only [hj] at hl
      injection hl with h1
      subst h1
      simp at hc
      subst hc
      exact ⟨rfl, rfl, rfl⟩
    | ok data =>
      simp only [hj] at hl
      cases data with
      | obj kvs =>
        by_cases hk : kvs.isEmpty
        · simp only [hk, if_true] at hl
          injection hl with h1
          subst h1
          simp at hc
        · simp only [hk, Bool.false_eq_true, if_false] at hl
          obtain ⟨x, _, hfx⟩ := mapME_mem _ _ _ hl c hc
          have hfields := lspParseServerConfig_ok_fields x.1 x.2 path level c hfx
          exact ⟨hfields.2.1, hfields.2.2.1, hfields.2.2.2⟩
      | null => injection hl with h1; subst h1; simp at hc
      | bool b => injection hl with h1; subst h1; simp at hc
      | num n => injection hl with h1; subst h1; simp at hc
      | str s => injection hl with h1; subst h1; simp at hc
      | arr xs => injection hl with h1; subst h1; simp at hc
  · intro fs path level
    unfold skillParse
    cases ht : fs.readText path with
    | error e => exact ⟨rfl, rfl, rfl⟩
    | ok content => exact ⟨rfl, rfl, rfl⟩
  · intro language_name server_config source_path level v htr hne
    simp only [lspParseServerConfig, htr, Option.getD_some]

/-- Counterexample to C7 as stated: a decodable `.lsp.json` whose one
server entry carries the non-string transport value `1` makes
`LSPServerParser.parse` raise (the uncaught `AttributeError` from
`transport.upper()`) instead of returning records — an exception does
escape the parser boundary. -/
theorem spec_parser_error_records_cex :
    lspParse fsLspRaiseW ["a", ".lsp.json"] .PLUGIN = .error "AttributeError" := rfl

/-- Witness for C7: the error records evaluated on a concrete filesystem
holding an undecodable `.lsp.json` and an unreadable `SKILL.md`, and the
raising path evaluated on a concrete non-string transport entry. -/
theorem spec_parser_error_records_witness :
    lspParse fsParseErrW ["a", ".lsp.json"] .PLUGIN = .ok
      [{ name := ".lsp.json", type := .LSP_SERVER, level := .PLUGIN,
         path := ["a", ".lsp.json"], description := none, content := none,
         metadata := [],
         error := some "Failed to parse LSP config: Expecting value",
         plugin_info := none }]
    ∧ skillParse fsParseErrW ["s", "skills", "x", "SKILL.md"] .PROJECT =
      { name := "x", type := .SKILL, level := .PROJECT,
        path := ["s", "skills", "x", "SKILL.md"], description := none,
        content := none, metadata := [],
        error := some "Failed to read file: Permission denied",
        plugin_info := none }
    ∧ lspParseServerConfig "go" [("transport", Json.num 1)] ["a", ".lsp.json"] .PLUGIN
        = .error "AttributeError" := by
  refine ⟨?_, ?_, ?_⟩
  · exact spec_parser_error_records.1 fsParseErrW ["a", ".lsp.json"] .PLUGIN
      "Expecting value" rfl
  · exact spec_parser_error_records.2.1 fsParseErrW ["s", "skills", "x", "SKILL.md"]
      .PROJECT "Permission denied" rfl
  · exact spec_parser_error_records.2.2.2.2 "go" [("transport", Json.num 1)]
      ["a", ".lsp.json"] .PLUGIN (Json.num 1) rfl (fun t h => Json.noConfusion h)

/-- C8: local-scope MCP discovery reads the `projects` map of
`~/.claude.json` and finds the current project's entry whether its key uses
forward slashes or backslashes (forward tried first); when the file is
absent, unreadable or undecodable, when the `projects` key is missing, or
when neither key form is present, it returns zero records and raises
nothing. -/
theorem spec_local_mcp_resolution :
    (∀ (fs : FS) (env : Env),
      fs.fileAt (env.home ++ [".claude.json"]) = none →
      discoverLocalMcps fs env = .ok [])
    ∧ (∀ (fs : FS) (env : Env),
      fs.fileAt (env.home ++ [".claude.json"]) = some .invalidJson ∨
        fs.fileAt (env.home ++ [".claude.json"]) = some .unreadable →
      discoverLocalMcps fs env = .ok [])
    ∧ (∀ (fs : FS) (env : Env) (kvs : List (String × Json)),
      fs.fileAt (env.home ++ [".claude.json"]) = some (.jsonVal (.obj kvs)) →
      lookupKV kvs "projects" = none →
      discoverLocalMcps fs env = .ok [])
    ∧ (∀ (fs : FS) (env : Env) (kvs projects : List (String × Json)),
      fs.fileAt (env.home ++ [".claude.json"]) = some (.jsonVal (.obj kvs)) →
      lookupKV kvs "projects" = some (.obj projects) →
      lookupKV projects (slashForward (joinPath env.projectRoot)) = none →
      lookupKV projects (slashBackward (slashForward (joinPath env.projectRoot))) = none →
      discoverLocalMcps fs env = .ok [])
    ∧ (∀ (fs : FS) (env : Env) (kvs projects ekvs servers : List (String × Json)),
      fs.fileAt (env.home ++ [".claude.json"]) = some (.jsonVal (.obj kvs)) →
      lookupKV kvs "projects" = some (.obj projects) →
      lookupKV projects (slashForward (joinPath env.projectRoot)) = some (.obj ekvs) →
      lookupKV ekvs "mcpServers" = some (.obj servers) → servers ≠ [] →
      discoverLocalMcps fs env = .ok (servers.map (fun kv =>
        mcpParseServerConfig kv.1 kv.2 (env.home ++ [".claude.json"]) .PROJECT_LOCAL)))
    ∧ (∀ (fs : FS) (env : Env) (kvs projects ekvs servers : List (String × Json)),
      fs.fileAt (env.home ++ [".claude.json"]) = some (.jsonVal (.obj kvs)) →
      lookupKV kvs "projects" = some (.obj projects) →
      lookupKV projects (slashForward (joinPath env.projectRoot)) = none →
      lookupKV projects (slashBackward (slashForward (joinPath env.projectRoot))) = some (.obj ekvs) →
      lookupKV ekvs "mcpServers" = some (.obj servers) → servers ≠ [] →
      discoverLocalMcps fs env = .ok (servers.map (fun kv =>
        mcpParseServerConfig kv.1 kv.2 (env.home ++ [".claude.json"]) .PROJECT_LOCAL))) := by
  refine ⟨?_, ?_, ?_, ?_, ?_, ?_⟩
  · intro fs env hf
    simp [discoverLocalMcps, hf]
  · intro fs env hf
    rcases hf with hf | hf <;> simp [discoverLocalMcps, hf]
  · intro fs env kvs hf hp
    simp [discoverLocalMcps, hf, hp, lookupKV]
  · intro fs env kvs projects hf hp h1 h2
    simp [discoverLocalMcps, hf, hp, h1, h2]
  · intro fs env kvs projects ekvs servers hf hp h1 hm hne
    have hs : servers.isEmpty = false := by
      cases servers with
      | nil => exact absurd rfl hne
      | cons a l => rfl
    simp [discoverLocalMcps, hf, hp, h1, hm, pyTruthy, hs]
  · intro fs env kvs projects ekvs servers hf hp h1 h2 hm hne
    have hs : servers.isEmpty = false := by
      cases servers with
      | nil => exact absurd rfl hne
      | cons a l => rfl
    simp [discoverLocalMcps, hf, hp, h1, h2, hm, pyTruthy, hs]

/-- Witness for C8: a concrete `~/.claude.json` whose `projects` key for
`/p` is stored with a backslash still yields the one local MCP record. -/
theorem spec_local_mcp_resolution_witness :
    discoverLocalMcps fsLocalMcpW envW = .ok
      [mcpParseServerConfig "s1" (.obj [("command", .str "npx")])
        (["h", ".claude.json"]) .PROJECT_LOCAL] := by
  exact spec_local_mcp_resolution.2.2.2.2.2 fsLocalMcpW envW _ _ _ _
    rfl rfl rfl rfl rfl (List.cons_ne_nil _ _)

/-! ### Version-key order lemmas -/

theorem intsGt_irrefl : ∀ a : List Int, intsGt a a = false := by
  intro a
  induction a with
  | nil => rfl
  | cons x xs ih => simp [intsGt, ih]

theorem intsGt_asymm : ∀ a b : List Int, intsGt a b = true → intsGt b a = false := by
  intro a
  induction a with
  | nil => intro b h; simp [intsGt] at h
  | cons x xs ih =>
    intro b h
    cases b with
    | nil => rfl
    | cons y ys =>
      simp only [intsGt] at h ⊢
      rcases lt_trichotomy x y with hxy | hxy | hxy
      · rw [if_neg (by omega), if_pos (by omega)] at h; simp at h
      · rw [if_neg (by omega), if_neg (by omega)] at h ⊢
        exact ih ys h
      · rw [if_neg (by omega), if_pos (by omega)]

theorem intsGt_false_trans : ∀ a b c : List Int,
    intsGt a b = false → intsGt b c = false → intsGt a c = false := by
  intro a
  induction a with
  | nil => intro b c _ _; rfl
  | cons x xs ih =>
    intro b c hab hbc
    cases b with
    | nil => simp [intsGt] at hab
    | cons y ys =>
      cases c with
      | nil => simp [intsGt] at hbc
      | cons z zs =>
        simp only [intsGt] at hab hbc ⊢
        rcases lt_trichotomy x y with hxy | hxy | hxy <;>
          rcases lt_trichotomy y z with hyz | hyz | hyz
        · rw [if_neg (by omega), if_pos (by omega)]
        · rw [if_neg (by omega), if_pos (by omega)]
        · rw [if_pos (by omega)] at hbc; simp at hbc
        · rw [if_neg (by omega), if_pos (by omega)]
        · rw [if_neg (by omega), if_neg (by omega)] at hab
          rw [if_neg (by omega), if_neg (by omega)] at hbc
          rw [if_neg (by omega), if_neg (by omega)]
          exact ih ys zs hab hbc
        · rw [if_pos (by omega)] at hbc; simp at hbc
        · rw [if_pos (by omega)] at hab; simp at hab
        · rw [if_pos (by omega)] at hab; simp at hab
        · rw [if_pos (by omega)] at hab; simp at hab

theorem charsLt_irrefl : ∀ a : List Char, charsLt a a = false := by
  intro a
  induction a with
  | nil => rfl
  | cons x xs ih => simp [charsLt, ih]

theorem charsLt_asymm : ∀ a b : List Char, charsLt a b = true → charsLt b a = false := by
  intro a
  induction a with
  | nil =>
    intro b h
    cases b with
    | nil => simp [charsLt] at h
    | cons y ys => rfl
  | cons x xs ih =>
    intro b h
    cases b with
    | nil => simp [charsLt] at h
    | cons y ys =>
      simp only [charsLt] at h ⊢
      rcases Nat.lt_trichotomy x.toNat y.toNat with hxy | hxy | hxy
      · rw [if_neg (by omega), if_pos (by omega)]
      · rw [if_neg (by omega), if_neg (by omega)] at h ⊢
        exact ih ys h
      · rw [if_neg (by omega), if_pos (by omega)] at h; simp at h

theorem charsLt_false_trans : ∀ a b c : List Char,
    charsLt a b = false → charsLt b c = false → charsLt a c = false := by
  intro a
  induction a with
  | nil =>
    intro b c hab hbc
    cases b with
    | nil =>
      cases c with
      | nil => rfl
      | cons z zs => simp [charsLt] at hbc
    | cons y ys => simp [charsLt] at hab
  | cons x xs ih =>
    intro b c hab hbc
    cases b with
    | nil =>
      cases c with
      | nil => rfl
      | cons z zs => simp [charsLt] at hbc
    | cons y ys =>
      cases c with
      | nil => rfl
      | cons z zs =>
        simp only [charsLt] at hab hbc ⊢
        rcases Nat.lt_trichotomy x.toNat y.toNat with hxy | hxy | hxy <;>
          rcases Nat.lt_trichotomy y.toNat z.toNat with hyz | hyz | hyz
        · rw [if_pos (by omega)] at hab; simp at hab
        · rw [if_pos (by omega)] at hab; simp at hab
        · rw [if_pos (by omega)] at hab; simp at hab
        · rw [if_pos (by omega)] at hbc; simp at hbc
        · rw [if_neg (by omega), if_neg (by omega)] at hab
          rw [if_neg (by omega), if_neg (by omega)] at hbc
          rw [if_neg (by omega), if_neg (by omega)]
          exact ih ys zs hab hbc
        · rw [if_neg (by omega), if_pos (by omega)]
        · rw [if_pos (by omega)] at hbc; simp at hbc
        · rw [if_neg (by omega), if_pos (by omega)]
        · rw [if_neg (by omega), if_pos (by omega)]

theorem vkeyGt_self : ∀ k : List Int ⊕ String, vkeyGt k k = some false := by
  intro k
  cases k with
  | inl a => simp [vkeyGt, intsGt_irrefl]
  | inr s => simp [vkeyGt, charsLt_irrefl]

theorem vkeyGt_asymm : ∀ k1 k2 : List Int ⊕ String,
    vkeyGt k1 k2 = some true → vkeyGt k2 k1 = some false := by
  intro k1 k2 h
  cases k1 <;> cases k2 <;> simp [vkeyGt] at h ⊢
  · exact intsGt_asymm _ _ h
  · exact charsLt_asymm _ _ h

theorem vkeyGt_false_trans : ∀ k1 k2 k3 : List Int ⊕ String,
    vkeyGt k1 k2 = some false → vkeyGt k2 k3 = some false →
    vkeyGt k1 k3 = some false := by
  intro k1 k2 k3 h12 h23
  cases k1 with
  | inl a =>
    cases k2 with
    | inl b =>
      cases k3 with
      | inl c =>
        simp [vkeyGt] at h12 h23 ⊢
        exact intsGt_false_trans _ _ _ h12 h23
      | inr s => simp [vkeyGt] at h23
    | inr s => simp [vkeyGt] at h12
  | inr s1 =>
    cases k2 with
    | inl b => simp [vkeyGt] at h12
    | inr s2 =>
      cases k3 with
      | inl c => simp [vkeyGt] at h23
      | inr s3 =>
        simp [vkeyGt] at h12 h23 ⊢
        exact charsLt_false_trans _ _ _ h23 h12

theorem vkeyGt_defined : ∀ k1 k2 : List Int ⊕ String,
    k1.isLeft = k2.isLeft → ∃ b, vkeyGt k1 k2 = some b := by
  intro k1 k2 h
  cases k1 <;> cases k2 <;> simp [vkeyGt] at h ⊢

theorem pyMaxBy_max {α : Type} (f : α → List Int ⊕ String) :
    ∀ (xs : List α) (cur : α), (∀ x ∈ xs, (f x).isLeft = (f cur).isLeft) →
    ∃ m, pyMaxBy f cur xs = some m ∧ (m = cur ∨ m ∈ xs)
      ∧ vkeyGt (f cur) (f m) = some false
      ∧ (∀ x ∈ xs, vkeyGt (f x) (f m) = some false) := by
  intro xs
  induction xs with
  | nil =>
    intro cur _
    exact ⟨cur, rfl, Or.inl rfl, vkeyGt_self _, by simp⟩
  | cons x rest ih =>
    intro cur h
    have hx : (f x).isLeft = (f cur).isLeft := h x (List.mem_cons_self x rest)
    obtain ⟨b, hb⟩ := vkeyGt_defined _ _ hx
    cases b with
    | true =>
      have hrest : ∀ y ∈ rest, (f y).isLeft = (f x).isLeft := fun y hy =>
        (h y (List.mem_cons_of_mem x hy)).trans hx.symm
      obtain ⟨m, hm, hmem, hxm, hall⟩ := ih x hrest
      refine ⟨m, ?_, ?_, ?_, ?_⟩
      · simp only [pyMaxBy, hb]; exact hm
      · rcases hmem with hmem | hmem
        · exact Or.inr (hmem ▸ List.mem_cons_self x rest)
        · exact Or.inr (List.mem_cons_of_mem x hmem)
      · exact vkeyGt_false_trans _ _ _ (vkeyGt_asymm _ _ hb) hxm
      · intro y hy
        rcases List.mem_cons.mp hy with hy | hy
        · exact hy ▸ hxm
        · exact hall y hy
    | false =>
      obtain ⟨m, hm, hmem, hcm, hall⟩ := ih cur
        (fun y hy => h y (List.mem_cons_of_mem x hy))
      refine ⟨m, ?_, ?_, hcm, ?_⟩
      · simp only [pyMaxBy, hb]; exact hm
      · rcases hmem with hmem | hmem
        · exact Or.inl hmem
        · exact Or.inr (List.mem_cons_of_mem x hmem)
      · intro y hy
        rcases List.mem_cons.mp hy with hy | hy
        · exact hy ▸ vkeyGt_false_trans _ _ _ hb hcm
        · exact hall y hy

/-- C4: when the manifest's literal install path is not a directory but its
parent is, `_create_plugin_info` installs at the directory
`_find_latest_version_dir` selects and takes that directory's name as the
resolved version; the selector returns a candidate none of whose siblings
compares strictly greater under the version-key order — dotted-int tuples
when every dot-separated component parses as an int, the original string
otherwise; and among candidates `1.0.0`, `10.0.0`, `2.0.0` it selects
`10.0.0` (numeric-tuple, not lexicographic, comparison). -/
theorem spec_latest_version_dir_selection :
    (∀ (fs : FS) (enabled : List (String × Json)) (pid : String)
      (kvs : List (String × Json)) (s : String) (vdir : Path),
      lookupKV kvs "installPath" = some (.str s) → s.isEmpty = false →
      fs.isDir (pathOfString s) = false →
      fs.isDir (pathOfString s).dropLast = true →
      findLatestVersionDir fs (pathOfString s).dropLast = .ok vdir →
      createPluginInfo fs enabled pid (.obj kvs) = .ok (some
        { plugin_id := pid, short_name := shortNameOf pid,
          version := lastName vdir, install_path := vdir,
          is_local := (match lookupKV kvs "isLocal" with
            | some w => pyTruthy w
            | none => false),
          is_enabled := enabledFlag enabled pid }))
    ∧ (∀ (fs : FS) (parent : Path) (d : Path) (ds : List Path),
      fs.childDirs parent = some (d :: ds) →
      (∀ x ∈ d :: ds, (parseVersion (lastName x)).isLeft
        = (parseVersion (lastName d)).isLeft) →
      ∃ m, findLatestVersionDir fs parent = .ok m ∧ m ∈ d :: ds
        ∧ ∀ x ∈ d :: ds,
            vkeyGt (parseVersion (lastName x)) (parseVersion (lastName m)) = some false)
    ∧ (∀ (s : String) (ns : List Int),
      ((splitOnChar '.' s.data []).mapM pyInt) = some ns → parseVersion s = .inl ns)
    ∧ (∀ s : String,
      ((splitOnChar '.' s.data []).mapM pyInt) = none → parseVersion s = .inr s)
    ∧ findLatestVersionDir fsVerW ["plug"] = .ok ["plug", "10.0.0"] := by
  refine ⟨?_, ?_, ?_, ?_, rfl⟩
  · intro fs enabled pid kvs s vdir hip hs hnd hpd hfl
    simp [createPluginInfo, hip, pyTruthy, hs, hnd, hpd, hfl]
  · intro fs parent d ds hcd hhom
    have hd : (parseVersion (lastName d)).isLeft = (parseVersion (lastName d)).isLeft := rfl
    obtain ⟨m, hm, hmem, hdm, hall⟩ :=
      pyMaxBy_max (fun d' => parseVersion (lastName d')) ds d
        (fun x hx => hhom x (List.mem_cons_of_mem d hx))
    refine ⟨m, ?_, ?_, ?_⟩
    · simp [findLatestVersionDir, hcd, hm]
    · rcases hmem with hmem | hmem
      · exact hmem ▸ List.mem_cons_self d ds
      · exact List.mem_cons_of_mem d hmem
    · intro x hx
      rcases List.mem_cons.mp hx with hx | hx
      · exact hx ▸ hdm
      · exact hall x hx
  · intro s ns h
    simp only [parseVersion]
    rw [h]
  · intro s h
    simp only [parseVersion]
    rw [h]

/-- Witness for C4: a concrete manifest entry whose literal path
`/plug/1.2.3` is absent resolves against the parent `/plug` holding
`1.0.0`, `10.0.0` and `2.0.0`, selecting `10.0.0` as install directory and
version; and the maximality property evaluated on that parent. -/
theorem spec_latest_version_dir_selection_witness :
    createPluginInfo fsVerW [] "p@m" (.obj [("installPath", .str "/plug/1.2.3")])
      = .ok (some
        { plugin_id := "p@m", short_name := "p", version := "10.0.0",
          install_path := ["plug", "10.0.0"], is_local := false,
          is_enabled := true })
    ∧ ∃ m, findLatestVersionDir fsVerW ["plug"] = .ok m
        ∧ m ∈ [["plug", "1.0.0"], ["plug", "10.0.0"], ["plug", "2.0.0"]]
        ∧ ∀ x ∈ [["plug", "1.0.0"], ["plug", "10.0.0"], ["plug", "2.0.0"]],
            vkeyGt (parseVersion (lastName x)) (parseVersion (lastName m)) = some false := by
  constructor
  · exact spec_latest_version_dir_selection.1 fsVerW [] "p@m" _ "/plug/1.2.3"
      ["plug", "10.0.0"] rfl rfl rfl rfl rfl
  · exact spec_latest_version_dir_selection.2.1 fsVerW ["plug"]
      ["plug", "1.0.0"] [["plug", "10.0.0"], ["plug", "2.0.0"]] rfl (by decide)

/-- C10: when the literal install path does not exist, its parent does, and
the parent has no subdirectories or listing it raises `OSError`, the
resolution returns the parent itself, and the plugin is reported — included
in the all-plugins result — with the version-less parent as install path and
the parent directory's name as version, rather than dropped or raising. -/
theorem spec_versionless_parent_fallback :
    (∀ (fs : FS) (parent : Path),
      fs.childDirs parent = some [] ∨ fs.childDirs parent = none →
      findLatestVersionDir fs parent = .ok parent)
    ∧ (∀ (fs : FS) (enabled : List (String × Json)) (pid : String)
        (kvs : List (String × Json)) (s : String),
      lookupKV kvs "installPath" = some (.str s) → s.isEmpty = false →
      fs.isDir (pathOfString s) = false →
      fs.isDir (pathOfString s).dropLast = true →
      (fs.childDirs (pathOfString s).dropLast = some [] ∨
        fs.childDirs (pathOfString s).dropLast = none) →
      ∃ pi, createPluginInfo fs enabled pid (.obj kvs) = .ok (some pi)
        ∧ pi.install_path = (pathOfString s).dropLast
        ∧ pi.version = lastName (pathOfString s).dropLast
        ∧ getAllPlugins fs ⟨[(pid, .obj kvs)], enabled⟩ = .ok [pi]) := by
  have hflat : ∀ (fs : FS) (parent : Path),
      fs.childDirs parent = some [] ∨ fs.childDirs parent = none →
      findLatestVersionDir fs parent = .ok parent := by
    intro fs parent h
    rcases h with h | h <;> simp [findLatestVersionDir, h]
  refine ⟨hflat, ?_⟩
  intro fs enabled pid kvs s hip hs hnd hpd hcd
  have hfl := hflat fs (pathOfString s).dropLast hcd
  have hcreate : createPluginInfo fs enabled pid (.obj kvs) = .ok (some
      { plugin_id := pid, short_name := shortNameOf pid,
        version := lastName (pathOfString s).dropLast,
        install_path := (pathOfString s).dropLast,
        is_local := (match lookupKV kvs "isLocal" with
          | some w => pyTruthy w
          | none => false),
        is_enabled := enabledFlag enabled pid }) := by
    simp [createPluginInfo, hip, pyTruthy, hs, hnd, hpd, hfl]
  refine ⟨_, hcreate, rfl, rfl, ?_⟩
  simp [getAllPlugins, collectPlugins, hcreate, hpd]

/-- Witness for C10: a plugin whose manifest points at `/noverplug/1.0.0`
while only the empty parent `/noverplug` exists is reported at the parent
with version `noverplug`. -/
theorem spec_versionless_parent_fallback_witness :
    ∃ pi, createPluginInfo ⟨[], [["noverplug"]], [], []⟩ [] "q@m"
        (.obj [("installPath", .str "/noverplug/1.0.0")]) = .ok (some pi)
      ∧ pi.install_path = ["noverplug"]
      ∧ pi.version = "noverplug"
      ∧ getAllPlugins ⟨[], [["noverplug"]], [], []⟩
          ⟨[("q@m", .obj [("installPath", .str "/noverplug/1.0.0")])], []⟩ = .ok [pi] := by
  exact spec_versionless_parent_fallback.2 ⟨[], [["noverplug"]], [], []⟩ [] "q@m"
    _ "/noverplug/1.0.0" rfl rfl rfl rfl (Or.inl rfl)

/-! ### Plugin inclusion lemmas -/

theorem createPluginInfo_plugin_id (fs : FS) (en : List (String × Json)) (pid : String)
    (d : Json) (pi : PluginInfo) :
    createPluginInfo fs en pid d = .ok (some pi) → pi.plugin_id = pid := by
  intro h
  simp only [createPluginInfo] at h
  repeat' split at h
  all_goals first
    | exact Except.noConfusion h
    | exact Option.noConfusion (Except.ok.inj h)
    | (injection h with h1; injection h1 with h2; rw [← h2])

theorem createPluginInfo_enabled_indep (fs : FS) (en1 en2 : List (String × Json))
    (pid : String) (d : Json) :
    createPluginInfo fs en2 pid d =
      (createPluginInfo fs en1 pid d).map (Option.map
        (fun pi => { pi with is_enabled := enabledFlag en2 pid })) := by
  simp only [createPluginInfo]
  repeat' split
  all_goals simp [Except.map]

theorem collectPlugins_mem (fs : FS) (enabled : List (String × Json)) (only : Bool) :
    ∀ (l : List (String × Json)) (res : List PluginInfo),
    collectPlugins fs enabled only l = .ok res →
    ∀ pi : PluginInfo, pi ∈ res ↔
      ∃ pid data, (pid, data) ∈ l
        ∧ (only = true → enabledFlag enabled pid = true)
        ∧ createPluginInfo fs enabled pid data = .ok (some pi)
        ∧ fs.isDir pi.install_path = true := by
  intro l
  induction l with
  | nil =>
    intro res h pi
    simp only [collectPlugins] at h
    injection h with h1
    subst h1
    simp
  | cons hd rest ih =>
    obtain ⟨pid0, d0⟩ := hd
    intro res h pi
    simp only [collectPlugins] at h
    by_cases hg : (only && !enabledFlag enabled pid0) = true
    · rw [if_pos hg] at h
      rw [ih res h pi]
      constructor
      · rintro ⟨pid, data, hmem, hflag, hc, hdir⟩
        exact ⟨pid, data, List.mem_cons_of_mem _ hmem, hflag, hc, hdir⟩
      · rintro ⟨pid, data, hmem, hflag, hc, hdir⟩
        rcases List.mem_cons.mp hmem with heq | hmem'
        · obtain ⟨h1, h2⟩ := Prod.mk.injEq .. ▸ heq
          subst h1
          obtain ⟨ho, hf⟩ := Bool.and_eq_true .. ▸ hg
          rw [hflag ho] at hf
          simp at hf
        · exact ⟨pid, data, hmem', hflag, hc, hdir⟩
    · rw [if_neg hg] at h
      cases hc0 : createPluginInfo fs enabled pid0 d0 with
      | error e => rw [hc0] at h; exact absurd h (by simp)
      | ok o =>
        rw [hc0] at h
        cases o with
        | none =>
          rw [ih res h pi]
          constructor
          · rintro ⟨pid, data, hmem, hflag, hc, hdir⟩
            exact ⟨pid, data, List.mem_cons_of_mem _ hmem, hflag, hc, hdir⟩
          · rintro ⟨pid, data, hmem, hflag, hc, hdir⟩
            rcases List.mem_cons.mp hmem with heq | hmem'
            · obtain ⟨h1, h2⟩ := Prod.mk.injEq .. ▸ heq
              subst h1; subst h2
              rw [hc0] at hc
              exact Option.noConfusion (Except.ok.inj hc)
            · exact ⟨pid, data, hmem', hflag, hc, hdir⟩
        | some pi0 =>
          cases hrest : collectPlugins fs enabled only rest with
          | error e => rw [hrest] at h; exact absurd h (by simp)
          | ok res' =>
            rw [hrest] at h
            have hres := Except.ok.inj h
            have hguard : only = true → enabledFlag enabled pid0 = true := by
              intro ho
              subst ho
              simp only [Bool.true_and] at hg
              cases hef : enabledFlag enabled pid0
              · rw [hef] at hg; simp at hg
              · rfl
            by_cases hdir0 : fs.isDir pi0.install_path = true
            · rw [if_pos hdir0] at hres
              subst hres
              rw [List.mem_cons, ih res' hrest pi]
              constructor
              · rintro (heq | ⟨pid, data, hmem, hflag, hc, hdir⟩)
                · subst heq
                  exact ⟨pid0, d0, List.mem_cons_self _ _, hguard, hc0, hdir0⟩
                · exact ⟨pid, data, List.mem_cons_of_mem _ hmem, hflag, hc, hdir⟩
              · rintro ⟨pid, data, hmem, hflag, hc, hdir⟩
                rcases List.mem_cons.mp hmem with heq | hmem'
                · obtain ⟨h1, h2⟩ := Prod.mk.injEq .. ▸ heq
                  subst h1; subst h2
                  rw [hc0] at hc
                  have := Option.some.inj (Except.ok.inj hc)
                  exact Or.inl this.symm
                · exact Or.inr ⟨pid, data, hmem', hflag, hc, hdir⟩
            · rw [if_neg hdir0] at hres
              subst hres
              rw [ih res' hrest pi]
              constructor
              · rintro ⟨pid, data, hmem, hflag, hc, hdir⟩
                exact ⟨pid, data, List.mem_cons_of_mem _ hmem, hflag, hc, hdir⟩
              · rintro ⟨pid, data, hmem, hflag, hc, hdir⟩
                rcases List.mem_cons.mp hmem with heq | hmem'
                · obtain ⟨h1, h2⟩ := Prod.mk.injEq .. ▸ heq
                  subst h1; subst h2
                  rw [hc0] at hc
                  have := Option.some.inj (Except.ok.inj hc)
                  rw [← this] at hdir
                  exact absurd hdir hdir0
                · exact ⟨pid, data, hmem', hflag, hc, hdir⟩

/-- C5 (amended): membership in the all-plugins result is independent of
the enabled map; a plugin id appears in the all-plugins result exactly when
its installed-manifest entry yields a `PluginInfo` whose resolved install
directory exists; and it appears in the enabled-plugins result exactly when
it appears in the all-plugins result and its enabled flag (defaulting to
true when absent) is true. -/
theorem spec_plugin_inclusion :
    (∀ (fs : FS) (installed en1 en2 : List (String × Json))
        (l1 l2 : List PluginInfo) (pid : String),
      collectPlugins fs en1 false installed = .ok l1 →
      collectPlugins fs en2 false installed = .ok l2 →
      ((∃ pi ∈ l1, pi.plugin_id = pid) ↔ (∃ pi ∈ l2, pi.plugin_id = pid)))
    ∧ (∀ (fs : FS) (installed enabled : List (String × Json))
        (l : List PluginInfo) (pid : String),
      collectPlugins fs enabled false installed = .ok l →
      ((∃ pi ∈ l, pi.plugin_id = pid) ↔
        ∃ data pi, (pid, data) ∈ installed
          ∧ createPluginInfo fs enabled pid data = .ok (some pi)
          ∧ fs.isDir pi.install_path = true))
    ∧ (∀ (fs : FS) (installed enabled : List (String × Json))
        (l le : List PluginInfo) (pid : String),
      collectPlugins fs enabled false installed = .ok l →
      collectPlugins fs enabled true installed = .ok le →
      ((∃ pi ∈ le, pi.plugin_id = pid) ↔
        ((∃ pi ∈ l, pi.plugin_id = pid) ∧ enabledFlag enabled pid = true))) := by
  have hchar : ∀ (fs : FS) (installed enabled : List (String × Json))
      (l : List PluginInfo) (pid : String),
      collectPlugins fs enabled false installed = .ok l →
      ((∃ pi ∈ l, pi.plugin_id = pid) ↔
        ∃ data pi, (pid, data) ∈ installed
          ∧ createPluginInfo fs enabled pid data = .ok (some pi)
          ∧ fs.isDir pi.install_path = true) := by
    intro fs installed enabled l pid h
    constructor
    · rintro ⟨pi, hpil, hpid⟩
      obtain ⟨pid', data, hmem, _, hc, hdir⟩ := (collectPlugins_mem fs enabled false
        installed l h pi).mp hpil
      have : pi.plugin_id = pid' := createPluginInfo_plugin_id fs enabled pid' data pi hc
      rw [hpid] at this
      subst this
      exact ⟨data, pi, hmem, hc, hdir⟩
    · rintro ⟨data, pi, hmem, hc, hdir⟩
      refine ⟨pi, ?_, createPluginInfo_plugin_id fs enabled pid data pi hc⟩
      exact (collectPlugins_mem fs enabled false installed l h pi).mpr
        ⟨pid, data, hmem, by simp, hc, hdir⟩
  refine ⟨?_, hchar, ?_⟩
  · intro fs installed en1 en2 l1 l2 pid h1 h2
    rw [hchar fs installed en1 l1 pid h1, hchar fs installed en2 l2 pid h2]
    constructor
    · rintro ⟨data, pi, hmem, hc, hdir⟩
      refine ⟨data, { pi with is_enabled := enabledFlag en2 pid }, hmem, ?_, hdir⟩
      rw [createPluginInfo_enabled_indep fs en1 en2 pid data, hc]
      rfl
    · rintro ⟨data, pi, hmem, hc, hdir⟩
      refine ⟨data, { pi with is_enabled := enabledFlag en1 pid }, hmem, ?_, hdir⟩
      rw [createPluginInfo_enabled_indep fs en2 en1 pid data, hc]
      rfl
  · intro fs installed enabled l le pid hall hen
    constructor
    · rintro ⟨pi, hpile, hpid⟩
      obtain ⟨pid', data, hmem, hflag, hc, hdir⟩ := (collectPlugins_mem fs enabled true
        installed le hen pi).mp hpile
      have hid : pi.plugin_id = pid' := createPluginInfo_plugin_id fs enabled pid' data pi hc
      rw [hpid] at hid
      subst hid
      refine ⟨⟨pi, ?_, hpid⟩, hflag rfl⟩
      exact (collectPlugins_mem fs enabled false installed l hall pi).mpr
        ⟨pid, data, hmem, by simp, hc, hdir⟩
    · rintro ⟨⟨pi, hpil, hpid⟩, hflag⟩
      obtain ⟨pid', data, hmem, _, hc, hdir⟩ := (collectPlugins_mem fs enabled false
        installed l hall pi).mp hpil
      have hid : pi.plugin_id = pid' := createPluginInfo_plugin_id fs enabled pid' data pi hc
      rw [hpid] at hid
      subst hid
      refine ⟨pi, ?_, hpid⟩
      exact (collectPlugins_mem fs enabled true installed le hen pi).mpr
        ⟨pid, data, hmem, fun _ => hflag, hc, hdir⟩

/-- Counterexample to C5 as stated: an installed-plugins entry whose install
path (and its parent) does not exist on disk is absent from the all-plugins
result even though its enabled flag defaults to true — a registry entry does
not unconditionally appear in the all-plugins result. -/
theorem spec_plugin_inclusion_cex :
    regGoneW.installed = [("p@m", .obj [("installPath", .str "/gone/p")])]
    ∧ enabledFlag regGoneW.enabled "p@m" = true
    ∧ getAllPlugins fsEmptyW regGoneW = .ok []
    ∧ getEnabledPlugins fsEmptyW regGoneW = .ok [] :=
  ⟨rfl, rfl, rfl, rfl⟩

/-- Witness for C5: flag-independence of all-plugins membership evaluated on
a concrete registry whose plugin is disabled in one of the two enabled maps. -/
theorem spec_plugin_inclusion_witness :
    ∃ l1 l2 : List PluginInfo,
      collectPlugins fsVerW [] false instW = .ok l1
      ∧ collectPlugins fsVerW [("p@m", Json.bool false)] false instW = .ok l2
      ∧ ((∃ pi ∈ l1, pi.plugin_id = "p@m") ↔ (∃ pi ∈ l2, pi.plugin_id = "p@m")) :=
  ⟨_, _, rfl, rfl, spec_plugin_inclusion.1 fsVerW instW []
    [("p@m", Json.bool false)] _ _ "p@m" rfl rfl⟩

/-- C1: a result a `discover_all` call returns is cached — the returned
list is exactly the cache's contents, and a second call with any filesystem
returns that cached list and leaves the state untouched; `refresh` clears
both the orchestrator cache and the plugin-registry cache and recomputes;
and concretely, a file added on disk after a pass does not appear through
the cache but does appear after `refresh`. -/
theorem spec_discover_all_cache :
    (∀ (fs fs' : FS) (env : Env) (s : DState) (l : List Customization) (s1 : DState),
      discoverAllS fs env s = (.ok l, s1) →
      s1.cache = some l ∧ discoverAllS fs' env s1 = (.ok l, s1))
    ∧ (∀ (fs : FS) (env : Env) (s : DState),
      refreshS fs env s = discoverAllS fs env ⟨none, none⟩)
    ∧ ((discoverAllS fsEmptyW envW ⟨none, none⟩).1 = .ok [])
    ∧ ((discoverAllS fsNewFileW envW (discoverAllS fsEmptyW envW ⟨none, none⟩).2).1
        = .ok [])
    ∧ (Except.map
        (fun l => l.any (fun c => c.name == "newcmd"
          && c.type == CustomizationType.SLASH_COMMAND))
        (refreshS fsNewFileW envW (discoverAllS fsEmptyW envW ⟨none, none⟩).2).1
        = .ok true) := by
  refine ⟨?_, fun _ _ _ => rfl, rfl, rfl, rfl⟩
  intro fs fs' env s l s1 hd
  obtain ⟨cache, registry⟩ := s
  cases cache with
  | some l0 =>
    simp only [discoverAllS] at hd
    have h1 := congrArg Prod.fst hd
    have h2 := congrArg Prod.snd hd
    simp at h1 h2
    subst h1
    rw [← h2]
    exact ⟨rfl, rfl⟩
  | none =>
    simp only [discoverAllS] at hd
    cases hlm : discoverLocalMcps fs env with
    | error e => rw [hlm] at hd; simp at hd
    | ok locals =>
      rw [hlm] at hd
      cases hga : getAllPlugins fs
          (registry.getD (loadRegistryFresh fs env.user_config_path)) with
      | error e => simp only [hga] at hd; simp at hd
      | ok pis =>
        simp only [hga] at hd
        cases hmap : mapME (discoverPluginItems fs) pis with
        | error e => simp only [hmap] at hd; simp at hd
        | ok pluginItems =>
          simp only [hmap] at hd
          have h1 := congrArg Prod.fst hd
          have h2 := congrArg Prod.snd hd
          simp at h1 h2
          rw [← h2, ← h1]
          exact ⟨rfl, rfl⟩

/-- Witness for C1: a pass over the empty filesystem caches the empty list,
and the cached state returns it unchanged. -/
theorem spec_discover_all_cache_witness :
    (⟨some [], some ⟨[], []⟩⟩ : DState).cache = some ([] : List Customization)
    ∧ discoverAllS fsNewFileW envW ⟨some [], some ⟨[], []⟩⟩
        = (.ok [], ⟨some [], some ⟨[], []⟩⟩) :=
  spec_discover_all_cache.1 fsEmptyW fsNewFileW envW ⟨none, none⟩ []
    ⟨some [], some ⟨[], []⟩⟩ rfl

/-! ### Memory-file dedup lemmas -/

theorem contains_false_not_mem {l : List Path} {p : Path}
    (h : l.contains p = false) : p ∉ l := by
  intro hmem
  simp [List.contains, List.elem_eq_mem, hmem] at h

theorem memoryFileParse_path (fs : FS) (p : Path) (level : ConfigLevel) :
    (memoryFileParse fs p level).path = p := by
  unfold memoryFileParse
  cases fs.readText p <;> rfl

theorem memStep_comp1 (fs : FS) (mk : Path → Customization)
    (hmk : ∀ p, (mk p).path = p) (fileCheck useCheck : Bool) :
    ∀ (cands : List Path) (acc : List Customization) (seen : List Path),
    (∀ c ∈ acc, fs.resolve c.path ∈ seen) →
    (∀ c ∈ (memStep fs mk fileCheck useCheck cands (acc, seen)).1,
      fs.resolve c.path ∈ (memStep fs mk fileCheck useCheck cands (acc, seen)).2) := by
  intro cands
  induction cands with
  | nil => intro acc seen h; exact h
  | cons c rest ih =>
    intro acc seen h
    simp only [memStep]
    by_cases hcond : ((!fileCheck || fs.isFile c)
        && (!useCheck || !seen.contains (fs.resolve c))) = true
    · rw [if_pos hcond]
      apply ih
      intro x hx
      rcases List.mem_append.mp hx with hx | hx
      · exact List.mem_cons_of_mem _ (h x hx)
      · rw [List.mem_singleton.mp hx, hmk]
        exact List.mem_cons_self _ _
    · rw [if_neg hcond]
      exact ih acc seen h

theorem memStep_nodup (fs : FS) (mk : Path → Customization)
    (hmk : ∀ p, (mk p).path = p) (fileCheck : Bool) :
    ∀ (cands : List Path) (acc : List Customization) (seen : List Path),
    (∀ c ∈ acc, fs.resolve c.path ∈ seen) →
    ((acc.map (fun c => fs.resolve c.path)).Nodup) →
    ((memStep fs mk fileCheck true cands (acc, seen)).1.map
      (fun c => fs.resolve c.path)).Nodup := by
  intro cands
  induction cands with
  | nil => intro acc seen _ h2; exact h2
  | cons c rest ih =>
    intro acc seen h1 h2
    simp only [memStep]
    by_cases hcond : ((!fileCheck || fs.isFile c)
        && (!true || !seen.contains (fs.resolve c))) = true
    · rw [if_pos hcond]
      have hnc : seen.contains (fs.resolve c) = false := by
        have := (Bool.and_eq_true _ _).mp hcond
        simpa using this.2
      apply ih
      · intro x hx
        rcases List.mem_append.mp hx with hx | hx
        · exact List.mem_cons_of_mem _ (h1 x hx)
        · rw [List.mem_singleton.mp hx, hmk]
          exact List.mem_cons_self _ _
      · rw [List.map_append]
        rw [List.nodup_append]
        refine ⟨h2, by simp [hmk], ?_⟩
        intro a ha
        simp only [List.map_cons, List.map_nil, List.mem_singleton, hmk]
        intro heq
        obtain ⟨x, hx, hxa⟩ := List.mem_map.mp ha
        have hseen : a ∈ seen := hxa ▸ h1 x hx
        rw [heq] at hseen
        exact contains_false_not_mem hnc hseen
    · rw [if_neg hcond]
      exact ih acc seen h1 h2

/-- C3 (amended): memory-file discovery walks the fixed candidate
precedence list against a running seen-resolved-paths set, so — provided
the unconditionally-added user-stage records have pairwise-distinct
resolved paths — all records of one pass have pairwise-distinct resolved
paths; when `<project_root>/.claude/CLAUDE.md` and `<project_root>/CLAUDE.md`
exist as distinct files, one record per file is produced (two in total);
when the second resolves to the first, exactly one record is produced,
preferring the first candidate in the precedence list; and a
recursively-discovered nested `CLAUDE.md` alone produces one record named
by its path relative to the project root. -/
theorem spec_memory_dedup_by_resolved_path :
    (∀ (fs : FS) (env : Env),
      ((memoryUserStage fs env).1.map (fun c => fs.resolve c.path)).Nodup →
      ((discoverMemoryFiles fs env).map (fun c => fs.resolve c.path)).Nodup)
    ∧ ((discoverMemoryFiles fsMemBoth envW).map (fun c => (c.path, c.level))
        = [(["p", ".claude", "CLAUDE.md"], ConfigLevel.PROJECT),
           (["p", "CLAUDE.md"], ConfigLevel.PROJECT)])
    ∧ ((discoverMemoryFiles fsMemLink envW).map (fun c => c.path)
        = [["p", ".claude", "CLAUDE.md"]])
    ∧ ((discoverMemoryFiles fsMemNested envW).map (fun c => c.name)
        = ["sub/CLAUDE.md"]) := by
  refine ⟨?_, rfl, rfl, rfl⟩
  intro fs env h
  have hmkU : ∀ p, ((fun p => memoryFileParse fs p ConfigLevel.USER) p).path = p :=
    fun p => memoryFileParse_path fs p ConfigLevel.USER
  have hmkP : ∀ p, ((fun p => memoryFileParse fs p ConfigLevel.PROJECT) p).path = p :=
    fun p => memoryFileParse_path fs p ConfigLevel.PROJECT
  have hmkR : ∀ p, ((fun p => { memoryFileParse fs p ConfigLevel.PROJECT with
      name := relPathString env.projectRoot p }) p).path = p :=
    fun p => memoryFileParse_path fs p ConfigLevel.PROJECT
  have hmkL : ∀ p, ((fun p => memoryFileParse fs p ConfigLevel.PROJECT_LOCAL) p).path = p :=
    fun p => memoryFileParse_path fs p ConfigLevel.PROJECT_LOCAL
  have h0 : ∀ c ∈ ([] : List Customization), fs.resolve c.path ∈ ([] : List Path) := by
    simp
  have h1 := memStep_comp1 fs _ hmkU true false
    [env.user_config_path ++ ["CLAUDE.md"], env.user_config_path ++ ["AGENTS.md"]]
    [] [] h0
  have hcompU := memStep_comp1 fs _ hmkU true false
    [env.user_config_path ++ ["CLAUDE.local.md"]] _ _ h1
  have hcomp3 := memStep_comp1 fs _ hmkP true true
    [env.project_config_path ++ ["CLAUDE.md"], env.project_config_path ++ ["AGENTS.md"],
     env.projectRoot ++ ["CLAUDE.md"], env.projectRoot ++ ["AGENTS.md"]] _ _ hcompU
  have hnd3 := memStep_nodup fs _ hmkP true
    [env.project_config_path ++ ["CLAUDE.md"], env.project_config_path ++ ["AGENTS.md"],
     env.projectRoot ++ ["CLAUDE.md"], env.projectRoot ++ ["AGENTS.md"]] _ _ hcompU h
  have hcomp4 := memStep_comp1 fs _ hmkR false true
    (fs.rglobFiles env.projectRoot (fun n => n == "CLAUDE.md")) _ _ hcomp3
  have hnd4 := memStep_nodup fs _ hmkR false
    (fs.rglobFiles env.projectRoot (fun n => n == "CLAUDE.md")) _ _ hcomp3 hnd3
  have hnd5 := memStep_nodup fs _ hmkL true
    [env.projectRoot ++ ["CLAUDE.local.md"], env.project_config_path ++ ["CLAUDE.local.md"]]
    _ _ hcomp4 hnd4
  exact hnd5

/-- Counterexample to C3 as stated: with both
`<project_root>/.claude/CLAUDE.md` and `<project_root>/CLAUDE.md` present as
distinct files, memory-file discovery produces two records, not exactly
one — the seen-set dedup only collapses candidates whose resolved paths
coincide. -/
theorem spec_memory_dedup_cex :
    fsMemBoth.isFile ["p", ".claude", "CLAUDE.md"] = true
    ∧ fsMemBoth.isFile ["p", "CLAUDE.md"] = true
    ∧ (discoverMemoryFiles fsMemBoth envW).length = 2
    ∧ (discoverMemoryFiles fsMemBoth envW).length ≠ 1 :=
  ⟨rfl, rfl, rfl, by decide⟩

/-- Witness for C3: the pairwise-distinct-resolved-paths conclusion
evaluated at the concrete two-file project (the user stage is empty there,
so its distinctness hypothesis holds by computation). -/
theorem spec_memory_dedup_by_resolved_path_witness :
    ((discoverMemoryFiles fsMemBoth envW).map
      (fun c => fsMemBoth.resolve c.path)).Nodup :=
  spec_memory_dedup_by_resolved_path.1 fsMemBoth envW (by decide)

end LC
